import Mathlib

/-!
A verification development for the load generator (`src/cc.go`, `src/cobra/cobra.go`).

The file embeds the sequential parts of the program (validation in `CC.New`, the
user-agent source, the reporter's interval arithmetic, the summary of `main`) as
pure functions, and the concurrent core (`CC.Start`, `CC.ShutDown`, the summary reads
of `main`) as a transition system whose runs are lists of scheduler events.

Conventions
* Go `int32` values are integers kept in range by `wrapInt32`; `atomic.AddInt32`
  is `addInt32`.
* Go `int` / `int64` values are integers; `%` on them is the truncating `Int.tmod`.
* A Go `error` is an `Option`: `none` is `nil`.
* A Go panic (index out of range) is `none`.
-/

namespace LoadGen

/-! ## 32-bit signed arithmetic -/

/-- Two's complement reduction of an integer to the `int32` range. -/
def wrapInt32 (x : Int) : Int := (x + 2147483648) % 4294967296 - 2147483648

/-- `atomic.AddInt32(&x, d)`: the new value of `x`. -/
def addInt32 (x d : Int) : Int := wrapInt32 (x + d)

/-- Subtraction of two `int32` values (`a - b` in Go). -/
def subInt32 (a b : Int) : Int := wrapInt32 (a - b)

/-! ## Configuration and validation (`CC`, `CC.New`) -/

/-- The tagged fields of `CC` (cc.go 15-23): `Url`, `Worker`, `Time`. -/
structure CC where
  Url : String
  Worker : Int
  Time : Int
deriving DecidableEq

/-- One entry of the validator's `ValidationErrors`: the field and the tag that failed. -/
structure FieldError where
  field : String
  tag : String
deriving DecidableEq

/-- Tags `url,required` on a string field, evaluated left to right; the first tag that
fails is reported. `isURL` is the validator library's `url` predicate; `required` on a
string holds when the string is not the zero value `""`. -/
def checkUrlField (isURL : String → Bool) (name : String) (v : String) : List FieldError :=
  if isURL v = false then [⟨name, "url"⟩]
  else if v = "" then [⟨name, "required"⟩]
  else []

/-- Tags `required,gt=0` on an `int` field, evaluated left to right; `required` on an
integer holds when it is not the zero value `0`, `gt=0` when it is greater than `0`. -/
def checkIntField (name : String) (v : Int) : List FieldError :=
  if v = 0 then [⟨name, "required"⟩]
  else if v > 0 then []
  else [⟨name, "gt"⟩]

/-- `validator.New().Struct(c)`: the field errors of `CC`, in field order. The embedded
`*Scheduler`, `*Report`, `*useragent` and the unexported `httpClient` carry no tags and
contribute no error. -/
def validateStruct (isURL : String → Bool) (c : CC) : List FieldError :=
  checkUrlField isURL "Url" c.Url ++ checkIntField "Worker" c.Worker ++
    checkIntField "Time" c.Time

/-- `CC.New` (cc.go 39-66), its returned `error`: `none` is `nil`, `some errs` the
validator's non-empty `ValidationErrors`. The allocations done before validation
(report, scheduler, user agents, HTTP client, signal channel) cannot fail. -/
def New (isURL : String → Bool) (c : CC) : Option (List FieldError) :=
  match validateStruct isURL c with
  | [] => none
  | e :: es => some (e :: es)

/-! ## User agents (`useragent`, `newUA`, `useragent.random`) -/

/-- The `useragent` struct (cc.go 174-176). -/
structure useragent where
  list : List String

/-- `newUA` (cc.go 178-193). -/
def newUA : useragent :=
  { list :=
      [ "Mozilla/5.0 (Windows NT 10.0; Win64; x64) AppleWebKit/537.36 (KHTML, like Gecko) Chrome/109.0.0.0 Safari/537.36",
        "Mozilla/5.0 (Macintosh; Intel Mac OS X 10_15_7) AppleWebKit/537.36 (KHTML, like Gecko) Chrome/109.0.0.0 Safari/537.36",
        "Mozilla/5.0 (Windows NT 10.0; Win64; x64) AppleWebKit/537.36 (KHTML, like Gecko) Chrome/108.0.0.0 Safari/537.36",
        "Mozilla/5.0 (Macintosh; Intel Mac OS X 10_15_7) AppleWebKit/537.36 (KHTML, like Gecko) Chrome/108.0.0.0 Safari/537.36",
        "Mozilla/5.0 (X11; Linux x86_64) AppleWebKit/537.36 (KHTML, like Gecko) Chrome/108.0.0.0 Safari/537.36",
        "Mozilla/5.0 (Macintosh; Intel Mac OS X 10_15_7) AppleWebKit/605.1.15 (KHTML, like Gecko) Version/16.1 Safari/605.1.15",
        "Mozilla/5.0 (Macintosh; Intel Mac OS X 10_15_7) AppleWebKit/537.36 (KHTML, like Gecko) Chrome/109.0.0.0 Safari/537.36 OPR/95.0.0.0",
        "Mozilla/5.0 (Windows NT 10.0; Win64; x64) AppleWebKit/537.36 (KHTML, like Gecko) Chrome/109.0.0.0 Safari/537.36 EdgA/109.0.1518.78",
        "Mozilla/5.0 (iPhone; CPU iPhone OS 16_3 like Mac OS X) AppleWebKit/605.1.15 (KHTML, like Gecko) CriOS/109.0.5414.85 Mobile/15E148 Safari/604.1",
        "Mozilla/5.0 (Windows NT 10.0; Win64; x64; rv:109.0) Gecko/20100101 Firefox/109.0" ] }

/-- `useragent.random` (cc.go 195-197) at clock reading `now = time.Now().UnixNano()`:
the index is `now % int64(len(u.list))` with Go's truncating remainder; an index outside
`0 .. len-1` (or a zero length) panics, which is `none`. The list is only read. -/
def useragent.random (u : useragent) (now : Int) : Option String :=
  let idx := Int.tmod now (u.list.length : Int)
  if 0 ≤ idx ∧ idx < (u.list.length : Int) then u.list.get? idx.toNat else none

/-! ## The reporter's interval arithmetic (cc.go 78, 86-92, 101) -/

/-- Locals of the reporter goroutine together with the interval values it has printed. -/
structure Ticker where
  lastTotalRequests : Int
  rendered : List Int
deriving DecidableEq

/-- State of the reporter before its first tick: `lastTotalRequests := int32(0)`. -/
def Ticker.start : Ticker := { lastTotalRequests := 0, rendered := [] }

/-- One tick of the reporter with `currentTotalRequests` the loaded `TotalRequests`:
`requestsInLastSecond := currentTotalRequests - lastTotalRequests`, then
`lastTotalRequests = currentTotalRequests`, then the value is printed. -/
def reporterTick (st : Ticker) (currentTotalRequests : Int) : Ticker :=
  let requestsInLastSecond := subInt32 currentTotalRequests st.lastTotalRequests
  { lastTotalRequests := currentTotalRequests
    rendered := st.rendered ++ [requestsInLastSecond] }

/-- The reporter run over the successive loaded totals. -/
def reporterRun (loaded : List Int) : Ticker := loaded.foldl reporterTick Ticker.start

/-! ## The summary of `main` (cobra.go 61-64, 82-84) -/

/-- Lines 82-84 of cobra.go: the average is printed only when `TotalRequests > 0`; the
printed value is `float64(TotalRequests) / float64(Time)`, read here as the exact
quotient. `none`: no average line is printed. The guard of these lines is on the total
only; that `time` is not `0` when they run comes from `New` (see `mainAverage`). -/
def overallRPS (total : Int) (time : Int) : Option ℚ :=
  if total > 0 then some ((total : ℚ) / (time : ℚ)) else none

/-- The average shown by `main` for configuration `c` when the run ends with final
total `total`: `main` stops with `log.Fatalf` when `New` returns an error, so nothing
is shown then. -/
def mainAverage (isURL : String → Bool) (c : CC) (total : Int) : Option ℚ :=
  match New isURL c with
  | some _ => none
  | none => overallRPS total c.Time

/-! ## The concurrent core: `CC.Start`, `CC.ShutDown` and the summary reads of `main`

Goroutines: `W` workers (cc.go 112-135), the reporter (cc.go 74-108) and `main`
(`Start`'s sleep, then `Done()`, then the summary reads of cobra.go 78-80). The ticker
is the environment. `Signal` is an unbuffered channel: a send completes only by handing
its value to a receiver. -/

/-- The `Report` struct (cc.go 32-36). -/
structure Report where
  TotalRequests : Int
  ErrorCount : Int
  SuccessCount : Int
deriving DecidableEq

/-- Control point of a worker goroutine (cc.go 113-134). -/
inductive WorkerPc where
  /-- About to run the `select` of line 114. -/
  | sel
  /-- The `default` case was taken; the `c.get` call of line 119 is outstanding. -/
  | req
  /-- The `get` call returned (`ok`: `err == nil`); line 120 is next. -/
  | got (ok : Bool)
  /-- Line 120 incremented `TotalRequests`; line 123 (`ok`) or 128 is next. -/
  | mid (ok : Bool)
  /-- Returned at line 116 (`recv`: a sent value was received; otherwise the channel
  was found closed). -/
  | done (recv : Bool)
deriving DecidableEq

/-- Control point of the reporter goroutine (cc.go 81-107). -/
inductive ReporterPc where
  /-- About to run the `select` of line 82. -/
  | run
  /-- Blocked in the `select`: neither case could proceed. -/
  | wait
  /-- The ticker case was taken; lines 86-105 are next. -/
  | body
  /-- Returned at line 84 (`recv`: a sent value was received; otherwise the channel
  was found closed). -/
  | done (recv : Bool)
deriving DecidableEq

/-- Control point of `main`. -/
inductive MainPc where
  /-- Inside `Start`, in `time.Sleep` (cc.go 139); all goroutines are spawned. -/
  | sleep
  /-- Inside `Done()`, at the loop head of cc.go 146 with loop variable `i`. -/
  | send (i : Nat)
  /-- Inside `Done()`, blocked in the send of cc.go 147 with loop variable `i`. -/
  | parked (i : Nat)
  /-- The channel is closed (cc.go 150); cobra.go 78 is the next read. -/
  | shut
  /-- `TotalRequests` was read as `t` (cobra.go 78); line 79 is next. -/
  | readS (t : Int)
  /-- `SuccessCount` was read as `s` (cobra.go 79); line 80 is next. -/
  | readE (t s : Int)
  /-- `ErrorCount` was read as `e` (cobra.go 80): the three printed counters. -/
  | fin (t s e : Int)
deriving DecidableEq

/-- State of the whole system. `okCalls` and `errCalls` are history variables: the
number of `get` calls that have returned with `err == nil` and with `err != nil`. -/
structure State where
  workers : List WorkerPc
  reporter : ReporterPc
  tickPending : Bool
  main : MainPc
  report : Report
  ticker : Ticker
  okCalls : Nat
  errCalls : Nat
deriving DecidableEq

/-- The state when `Start` has spawned the reporter and the `W` workers and sleeps. -/
def init (W : Nat) : State :=
  { workers := List.replicate W WorkerPc.sel
    reporter := ReporterPc.run
    tickPending := false
    main := MainPc.sleep
    report := { TotalRequests := 0, ErrorCount := 0, SuccessCount := 0 }
    ticker := Ticker.start
    okCalls := 0
    errCalls := 0 }

/-- The channel has been closed: `main` is past cc.go 150. -/
def State.closed (s : State) : Bool :=
  match s.main with
  | MainPc.sleep => false
  | MainPc.send _ => false
  | MainPc.parked _ => false
  | _ => true

/-- One step of worker `i`; `ok` is the outcome of `get` when the step is its return.
At the `select`: a closed channel or a parked sender makes the receive case proceed
(the worker returns, a parked sender is released); otherwise `default` is taken. -/
def workerStep (i : Nat) (ok : Bool) (s : State) : State :=
  match s.workers.get? i with
  | none => s
  | some WorkerPc.sel =>
    match s.main with
    | MainPc.sleep => { s with workers := s.workers.set i WorkerPc.req }
    | MainPc.send _ => { s with workers := s.workers.set i WorkerPc.req }
    | MainPc.parked k =>
      { s with workers := s.workers.set i (WorkerPc.done true), main := MainPc.send (k + 1) }
    | _ => { s with workers := s.workers.set i (WorkerPc.done false) }
  | some WorkerPc.req =>
    { s with
      workers := s.workers.set i (WorkerPc.got ok)
      okCalls := if ok then s.okCalls + 1 else s.okCalls
      errCalls := if ok then s.errCalls else s.errCalls + 1 }
  | some (WorkerPc.got b) =>
    { s with
      workers := s.workers.set i (WorkerPc.mid b)
      report := { s.report with TotalRequests := addInt32 s.report.TotalRequests 1 } }
  | some (WorkerPc.mid true) =>
    { s with
      workers := s.workers.set i WorkerPc.sel
      report := { s.report with SuccessCount := addInt32 s.report.SuccessCount 1 } }
  | some (WorkerPc.mid false) =>
    { s with
      workers := s.workers.set i WorkerPc.sel
      report := { s.report with ErrorCount := addInt32 s.report.ErrorCount 1 } }
  | some (WorkerPc.done _) => s

/-- One step of the reporter. At the `select`, when both the signal case and the ticker
case can proceed, Go picks one of them; `pickTick` is that pick. The three loads and the
print of lines 86-105 are one step (only the loaded `TotalRequests` is kept). -/
def reporterStep (pickTick : Bool) (s : State) : State :=
  match s.reporter with
  | ReporterPc.run =>
    match s.main with
    | MainPc.sleep =>
      if s.tickPending then { s with reporter := ReporterPc.body, tickPending := false }
      else { s with reporter := ReporterPc.wait }
    | MainPc.send _ =>
      if s.tickPending then { s with reporter := ReporterPc.body, tickPending := false }
      else { s with reporter := ReporterPc.wait }
    | MainPc.parked k =>
      if s.tickPending && pickTick then
        { s with reporter := ReporterPc.body, tickPending := false }
      else { s with reporter := ReporterPc.done true, main := MainPc.send (k + 1) }
    | _ =>
      if s.tickPending && pickTick then
        { s with reporter := ReporterPc.body, tickPending := false }
      else { s with reporter := ReporterPc.done false }
  | ReporterPc.body =>
    { s with
      reporter := ReporterPc.run
      ticker := reporterTick s.ticker s.report.TotalRequests }
  | ReporterPc.wait => s
  | ReporterPc.done _ => s

/-- The ticker fires: a reporter blocked in its `select` takes the tick at once;
otherwise the tick is left in the one-slot buffer of `ticker.C`. -/
def tickStep (s : State) : State :=
  if s.reporter = ReporterPc.wait then { s with reporter := ReporterPc.body }
  else { s with tickPending := true }

/-- The function returned by `CC.ShutDown` (cc.go 144-152) at the loop head with loop
variable `i`: while `i < c.Worker` the send of line 147, which hands its value to a
reporter blocked in its `select` and otherwise blocks until a receiver arrives; after
the loop the `close` of line 150, which wakes a reporter blocked in its `select`. -/
def ShutDown (i : Nat) (s : State) : State :=
  if i < s.workers.length then
    if s.reporter = ReporterPc.wait then
      { s with reporter := ReporterPc.done true, main := MainPc.send (i + 1) }
    else { s with main := MainPc.parked i }
  else
    { s with
      main := MainPc.shut
      reporter := if s.reporter = ReporterPc.wait then ReporterPc.done false else s.reporter }

/-- One step of `main`: the end of the sleep of `Start`, a step of `Done()` (a blocked
send cannot step), or one of the three summary reads, made one after the other. -/
def mainStep (s : State) : State :=
  match s.main with
  | MainPc.sleep => { s with main := MainPc.send 0 }
  | MainPc.send i => ShutDown i s
  | MainPc.parked _ => s
  | MainPc.shut => { s with main := MainPc.readS s.report.TotalRequests }
  | MainPc.readS t => { s with main := MainPc.readE t s.report.SuccessCount }
  | MainPc.readE t su => { s with main := MainPc.fin t su s.report.ErrorCount }
  | MainPc.fin _ _ _ => s

/-- Scheduler events. -/
inductive Event where
  | worker (i : Nat) (ok : Bool)
  | reporter (pickTick : Bool)
  | tick
  | main
deriving DecidableEq

/-- The effect of one event. -/
def step (e : Event) (s : State) : State :=
  match e with
  | Event.worker i ok => workerStep i ok s
  | Event.reporter p => reporterStep p s
  | Event.tick => tickStep s
  | Event.main => mainStep s

/-- The state after the events of `tr`, in order: one interleaving of the goroutines. -/
def run (tr : List Event) (s : State) : State := tr.foldl (fun st e => step e st) s

/-! ## Observations on states -/

/-- The worker's `get` call is outstanding. -/
def WorkerPc.isReq : WorkerPc → Bool
  | WorkerPc.req => true
  | _ => false

/-- The worker holds a `get` result and has not yet incremented `TotalRequests`. -/
def WorkerPc.isGot : WorkerPc → Bool
  | WorkerPc.got _ => true
  | _ => false

/-- The worker is between its two increments (lines 120 and 123 / 128). -/
def WorkerPc.isMid : WorkerPc → Bool
  | WorkerPc.mid _ => true
  | _ => false

/-- The worker holds a `nil`-error result not yet added to `SuccessCount`. -/
def WorkerPc.pendOk : WorkerPc → Bool
  | WorkerPc.got true => true
  | WorkerPc.mid true => true
  | _ => false

/-- The worker holds an error result not yet added to `ErrorCount`. -/
def WorkerPc.pendErr : WorkerPc → Bool
  | WorkerPc.got false => true
  | WorkerPc.mid false => true
  | _ => false

/-- The worker returned after receiving a sent value. -/
def WorkerPc.hasRecv : WorkerPc → Bool
  | WorkerPc.done true => true
  | _ => false

/-- The worker returned after finding the channel closed. -/
def WorkerPc.sawClosed : WorkerPc → Bool
  | WorkerPc.done false => true
  | _ => false

/-- The worker has not returned. -/
def WorkerPc.isLive : WorkerPc → Bool
  | WorkerPc.done _ => false
  | _ => true

/-- The reporter has not returned. -/
def ReporterPc.isLive : ReporterPc → Bool
  | ReporterPc.done _ => false
  | _ => true

/-- Number of `get` calls that have returned. -/
def State.calls (s : State) : Nat := s.okCalls + s.errCalls

/-- Number of observers (workers and reporter) that received a sent value and returned. -/
def State.received (s : State) : Nat :=
  s.workers.countP WorkerPc.hasRecv + (if s.reporter = ReporterPc.done true then 1 else 0)

/-- Number of observers (workers and reporter) that have not returned. -/
def State.live (s : State) : Nat :=
  s.workers.countP WorkerPc.isLive + (if s.reporter.isLive then 1 else 0)

/-- Number of sends of `Done()` that have completed. -/
def State.sent (s : State) : Nat :=
  match s.main with
  | MainPc.sleep => 0
  | MainPc.send k => k
  | MainPc.parked k => k
  | _ => s.workers.length

/-- No worker is between its two increments. -/
def State.quiescent (s : State) : Prop := ∀ w ∈ s.workers, w.isMid = false

/-- No worker holds a `get` result that is not yet fully counted. -/
def State.settled (s : State) : Prop := ∀ w ∈ s.workers, w.isGot = false ∧ w.isMid = false

/-- Number of steps of worker `i` in a schedule. -/
def stepsOf (i : Nat) (tr : List Event) : Nat :=
  tr.countP (fun e => match e with
    | Event.worker j _ => decide (j = i)
    | _ => false)

/-- The schedule in which worker `0` alone completes `n` requests, all successful:
each request is the four steps `select`, return of `get`, and the two increments. -/
def requests : Nat → List Event
  | 0 => []
  | n + 1 => requests n ++ List.replicate 4 (Event.worker 0 true)

/-! ## Sample schedules -/

/-- Two workers: worker `0` completes a successful request and issues another one,
worker `1` completes a failed request. -/
def scheduleCounting : List Event :=
  [Event.worker 0 true, Event.worker 0 true, Event.worker 1 false, Event.worker 0 true,
    Event.worker 1 false, Event.worker 1 false, Event.worker 0 true, Event.worker 1 false,
    Event.worker 0 true]

/-- One worker: a successful request, then the shutdown, whose single send is received by
the worker; the reporter is still at its `select` when the channel is closed. -/
def scheduleShutdown : List Event :=
  [Event.worker 0 true, Event.worker 0 true, Event.worker 0 true, Event.worker 0 true,
    Event.main, Event.main, Event.worker 0 true, Event.main]

/-- One worker: the schedule `scheduleShutdown` followed by the three summary reads. -/
def scheduleSummary : List Event :=
  scheduleShutdown ++ [Event.main, Event.main, Event.main]

/-- One worker: a tick is pending; the single send of the shutdown is received by the
worker and the channel is closed while the reporter is at its `select`. -/
def scheduleTickPending : List Event :=
  [Event.tick, Event.main, Event.main, Event.worker 0 true, Event.main]

/-- One worker with a request outstanding: the reporter receives the single send, the
channel is closed, `main` reads `TotalRequests`, the request then completes and is
counted, and `main` reads `SuccessCount` and `ErrorCount`. -/
def scheduleRace : List Event :=
  [Event.worker 0 true, Event.main, Event.main, Event.reporter false, Event.main, Event.main,
    Event.worker 0 true, Event.worker 0 true, Event.worker 0 true, Event.main, Event.main]

/-- Two workers with requests outstanding and the reporter blocked in its `select`. -/
def scheduleBusy : List Event :=
  [Event.reporter false, Event.worker 0 true, Event.worker 1 true]

/-! ## Invariants -/

/-- The counters are the `int32` images of the numbers of increments performed. -/
def CountInv (s : State) : Prop :=
  s.report.TotalRequests
      = wrapInt32 ((s.okCalls : Int) + (s.errCalls : Int) - (s.workers.countP WorkerPc.isGot : Int)) ∧
  s.report.SuccessCount
      = wrapInt32 ((s.okCalls : Int) - (s.workers.countP WorkerPc.pendOk : Int)) ∧
  s.report.ErrorCount
      = wrapInt32 ((s.errCalls : Int) - (s.workers.countP WorkerPc.pendErr : Int)) ∧
  s.workers.countP WorkerPc.pendOk ≤ s.okCalls ∧
  s.workers.countP WorkerPc.pendErr ≤ s.errCalls

/-- The shutdown protocol: every completed send was received by one observer, which
returned; nobody returns otherwise before the close; a blocked sender has an iteration
left, and the reporter is not blocked in its `select` while a sender is blocked or the
channel is closed. -/
def SignalInv (s : State) : Prop :=
  match s.main with
  | MainPc.sleep =>
    s.received = 0 ∧ s.workers.countP WorkerPc.sawClosed = 0 ∧
      s.reporter ≠ ReporterPc.done false
  | MainPc.send k =>
    s.received = k ∧ k ≤ s.workers.length ∧ s.workers.countP WorkerPc.sawClosed = 0 ∧
      s.reporter ≠ ReporterPc.done false
  | MainPc.parked k =>
    s.received = k ∧ k < s.workers.length ∧ s.workers.countP WorkerPc.sawClosed = 0 ∧
      s.reporter ≠ ReporterPc.done false ∧ s.reporter ≠ ReporterPc.wait
  | _ => s.received = s.workers.length ∧ s.reporter ≠ ReporterPc.wait

/-- The summary reads of `main` (cobra.go 78-80) against the current state, for runs of
fewer than `2^31` calls: each value read is at most the current count of its counter,
and with `F` the number of calls issued, no read and no sum of the success and error
reads is below `F - 1`. -/
def ReadInv (s : State) : Prop :=
  s.calls < 2147483648 →
  match s.main with
  | MainPc.readS t =>
    t ≤ (s.calls : Int) - (s.workers.countP WorkerPc.isGot : Int) ∧
    (s.calls : Int) + (s.workers.countP WorkerPc.isReq : Int) - 1 ≤ t
  | MainPc.readE t su =>
    t ≤ (s.calls : Int) - (s.workers.countP WorkerPc.isGot : Int) ∧
    (s.calls : Int) + (s.workers.countP WorkerPc.isReq : Int) - 1 ≤ t ∧
    su ≤ (s.okCalls : Int) - (s.workers.countP WorkerPc.pendOk : Int) ∧
    (s.calls : Int) + (s.workers.countP WorkerPc.isReq : Int) - 1
      ≤ su + ((s.errCalls : Int) - (s.workers.countP WorkerPc.pendErr : Int))
  | MainPc.fin t su e =>
    t ≤ (s.calls : Int) - (s.workers.countP WorkerPc.isGot : Int) ∧
    (s.calls : Int) + (s.workers.countP WorkerPc.isReq : Int) - 1 ≤ t ∧
    su ≤ (s.okCalls : Int) - (s.workers.countP WorkerPc.pendOk : Int) ∧
    e ≤ (s.errCalls : Int) - (s.workers.countP WorkerPc.pendErr : Int) ∧
    (s.calls : Int) + (s.workers.countP WorkerPc.isReq : Int) - 1 ≤ su + e
  | _ => True

/-- The invariant of the system. -/
def Inv (s : State) : Prop := CountInv s ∧ SignalInv s ∧ ReadInv s

/-- Number of increments of `TotalRequests` performed so far. -/
def State.incT (s : State) : Int :=
  (s.okCalls : Int) + (s.errCalls : Int) - (s.workers.countP WorkerPc.isGot : Int)

/-- Number of increments of `SuccessCount` performed so far. -/
def State.incS (s : State) : Int :=
  (s.okCalls : Int) - (s.workers.countP WorkerPc.pendOk : Int)

/-- Number of increments of `ErrorCount` performed so far. -/
def State.incE (s : State) : Int :=
  (s.errCalls : Int) - (s.workers.countP WorkerPc.pendErr : Int)

/-- Number of own steps a worker needs to return once the channel is closed. -/
def WorkerPc.dist : WorkerPc → Nat
  | WorkerPc.req => 4
  | WorkerPc.got _ => 3
  | WorkerPc.mid _ => 2
  | WorkerPc.sel => 1
  | WorkerPc.done _ => 0

/-- The distance of worker `i` from its return (`0` for an index that is no worker). -/
def State.togo (s : State) (i : Nat) : Nat :=
  match s.workers[i]? with
  | some w => w.dist
  | none => 0

/-- Two workers with outstanding requests while `Done()` has completed at most its first
send, and that one only to the reporter. -/
def Stuck (s : State) : Prop :=
  s.workers = [WorkerPc.req, WorkerPc.req] ∧
  (s.main = MainPc.sleep ∨ s.main = MainPc.send 0 ∨ s.main = MainPc.parked 0 ∨
    (s.main = MainPc.send 1 ∧ s.reporter = ReporterPc.done true) ∨ s.main = MainPc.parked 1)

/-! ## Counting lemmas -/

theorem countP_set_add {α : Type} (p : α → Bool) (l : List α) (i : Nat) (a old : α)
    (h : l[i]? = some old) :
    (l.set i a).countP p + (if p old then 1 else 0) = l.countP p + (if p a then 1 else 0) := by
  induction l generalizing i with
  | nil => simp at h
  | cons x xs ih =>
    cases i with
    | zero =>
      simp at h
      subst h
      simp [List.countP_cons]
      omega
    | succ j =>
      simp at h
      have := ih j h
      simp [List.countP_cons]
      omega


/-- Effect of replacing the control point of one worker on all the tallies. -/
theorem set_tally (l : List WorkerPc) (i : Nat) (a old : WorkerPc) (h : l[i]? = some old) :
    ((l.set i a).countP WorkerPc.isReq + (if old.isReq then 1 else 0)
        = l.countP WorkerPc.isReq + (if a.isReq then 1 else 0)) ∧
    ((l.set i a).countP WorkerPc.isGot + (if old.isGot then 1 else 0)
        = l.countP WorkerPc.isGot + (if a.isGot then 1 else 0)) ∧
    ((l.set i a).countP WorkerPc.isMid + (if old.isMid then 1 else 0)
        = l.countP WorkerPc.isMid + (if a.isMid then 1 else 0)) ∧
    ((l.set i a).countP WorkerPc.pendOk + (if old.pendOk then 1 else 0)
        = l.countP WorkerPc.pendOk + (if a.pendOk then 1 else 0)) ∧
    ((l.set i a).countP WorkerPc.pendErr + (if old.pendErr then 1 else 0)
        = l.countP WorkerPc.pendErr + (if a.pendErr then 1 else 0)) ∧
    ((l.set i a).countP WorkerPc.hasRecv + (if old.hasRecv then 1 else 0)
        = l.countP WorkerPc.hasRecv + (if a.hasRecv then 1 else 0)) ∧
    ((l.set i a).countP WorkerPc.sawClosed + (if old.sawClosed then 1 else 0)
        = l.countP WorkerPc.sawClosed + (if a.sawClosed then 1 else 0)) ∧
    ((l.set i a).countP WorkerPc.isLive + (if old.isLive then 1 else 0)
        = l.countP WorkerPc.isLive + (if a.isLive then 1 else 0)) :=
  ⟨countP_set_add _ l i a old h, countP_set_add _ l i a old h, countP_set_add _ l i a old h,
   countP_set_add _ l i a old h, countP_set_add _ l i a old h, countP_set_add _ l i a old h,
   countP_set_add _ l i a old h, countP_set_add _ l i a old h⟩

/-- Relations between the tallies of one worker list. -/
theorem tally_rel (l : List WorkerPc) :
    l.countP WorkerPc.isGot + l.countP WorkerPc.isMid
        = l.countP WorkerPc.pendOk + l.countP WorkerPc.pendErr ∧
    l.countP WorkerPc.isReq + l.countP WorkerPc.isGot + l.countP WorkerPc.isMid
        ≤ l.countP WorkerPc.isLive ∧
    l.countP WorkerPc.isLive + l.countP WorkerPc.hasRecv + l.countP WorkerPc.sawClosed
        = l.length := by
  induction l with
  | nil => simp
  | cons x xs ih =>
    obtain ⟨h1, h2, h3⟩ := ih
    rcases x with _ | _ | b | b | b <;> try cases b
    all_goals
      simp [List.countP_cons, WorkerPc.isReq, WorkerPc.isGot, WorkerPc.isMid, WorkerPc.pendOk,
        WorkerPc.pendErr, WorkerPc.hasRecv, WorkerPc.sawClosed, WorkerPc.isLive]
      omega

theorem countInv_workerStep (i : Nat) (ok : Bool) (s : State) (h : CountInv s) :
    CountInv (workerStep i ok s) := by
  have T := fun a old h => set_tally s.workers i a old h
  simp only [WorkerPc.isReq, WorkerPc.isGot, WorkerPc.isMid, WorkerPc.pendOk, WorkerPc.pendErr,
    WorkerPc.hasRecv, WorkerPc.sawClosed, WorkerPc.isLive] at T
  unfold workerStep
  rw [List.get?_eq_getElem?]
  split
  · exact h
  · rename_i hget
    split
    all_goals
      first
      | (have hT := T WorkerPc.req _ hget
         simp only [CountInv, wrapInt32, addInt32] at *
         simp at hT
         omega)
      | (have hT := T (WorkerPc.done true) _ hget
         simp only [CountInv, wrapInt32, addInt32] at *
         simp at hT
         omega)
      | (have hT := T (WorkerPc.done false) _ hget
         simp only [CountInv, wrapInt32, addInt32] at *
         simp at hT
         omega)
  · rename_i hget
    have := T (WorkerPc.got ok) _ hget
    simp only [CountInv, wrapInt32, addInt32] at *
    cases ok <;> simp at this ⊢ <;> omega
  · rename_i b hget
    have := T (WorkerPc.mid b) _ hget
    simp only [CountInv, wrapInt32, addInt32] at *
    cases b <;> simp at this ⊢ <;> omega
  · rename_i hget
    have := T WorkerPc.sel _ hget
    simp only [CountInv, wrapInt32, addInt32] at *
    simp at this ⊢
    omega
  · rename_i hget
    have := T WorkerPc.sel _ hget
    simp only [CountInv, wrapInt32, addInt32] at *
    simp at this ⊢
    omega
  · exact h

theorem reporterStep_frame (p : Bool) (s : State) :
    (reporterStep p s).workers = s.workers ∧ (reporterStep p s).report = s.report ∧
    (reporterStep p s).okCalls = s.okCalls ∧ (reporterStep p s).errCalls = s.errCalls := by
  unfold reporterStep
  split <;> (try split) <;> (try split) <;> simp

theorem tickStep_frame (s : State) :
    (tickStep s).workers = s.workers ∧ (tickStep s).report = s.report ∧
    (tickStep s).okCalls = s.okCalls ∧ (tickStep s).errCalls = s.errCalls ∧
    (tickStep s).main = s.main := by
  unfold tickStep
  split <;> simp

theorem mainStep_frame (s : State) :
    (mainStep s).workers = s.workers ∧ (mainStep s).report = s.report ∧
    (mainStep s).okCalls = s.okCalls ∧ (mainStep s).errCalls = s.errCalls := by
  unfold mainStep ShutDown
  split <;> (try split) <;> (try split) <;> simp

theorem countInv_congr (s t : State) (hw : t.workers = s.workers) (hr : t.report = s.report)
    (ho : t.okCalls = s.okCalls) (he : t.errCalls = s.errCalls) (h : CountInv s) :
    CountInv t := by
  unfold CountInv at *
  rw [hw, hr, ho, he]
  exact h

theorem countInv_step (e : Event) (s : State) (h : CountInv s) : CountInv (step e s) := by
  cases e with
  | worker i ok => exact countInv_workerStep i ok s h
  | reporter p =>
    obtain ⟨a, b, c, d⟩ := reporterStep_frame p s
    exact countInv_congr s _ a b c d h
  | tick =>
    obtain ⟨a, b, c, d, _⟩ := tickStep_frame s
    exact countInv_congr s _ a b c d h
  | main =>
    obtain ⟨a, b, c, d⟩ := mainStep_frame s
    exact countInv_congr s _ a b c d h

theorem signalInv_congr (s t : State) (hm : t.main = s.main) (hr : t.reporter = s.reporter)
    (h1 : t.workers.countP WorkerPc.hasRecv = s.workers.countP WorkerPc.hasRecv)
    (h2 : t.workers.countP WorkerPc.sawClosed = s.workers.countP WorkerPc.sawClosed)
    (h3 : t.workers.length = s.workers.length) (h : SignalInv s) : SignalInv t := by
  simp only [SignalInv, State.received, hm, hr, h1, h2, h3] at h ⊢
  exact h

theorem signalInv_workerStep (i : Nat) (ok : Bool) (s : State) (h : SignalInv s) :
    SignalInv (workerStep i ok s) := by
  have T := fun a old h => set_tally s.workers i a old h
  unfold workerStep
  rw [List.get?_eq_getElem?]
  split
  · exact h
  · rename_i hget
    cases hm : s.main
    all_goals
      simp only [hm]
      first
      | (obtain ⟨t1, t2, t3, t4, t5, t6, t7, t8⟩ := T WorkerPc.req _ hget
         simp only [WorkerPc.hasRecv, WorkerPc.sawClosed, Bool.false_eq_true, if_false, if_true,
           Nat.add_zero] at t6 t7
         refine signalInv_congr s _ ?_ ?_ t6 t7 ?_ h <;> simp [hm])
      | (obtain ⟨t1, t2, t3, t4, t5, t6, t7, t8⟩ := T (WorkerPc.done true) _ hget
         simp only [WorkerPc.hasRecv, WorkerPc.sawClosed, Bool.false_eq_true, if_false, if_true,
           Nat.add_zero] at t6 t7
         simp only [SignalInv, State.received, hm, List.length_set] at h ⊢
         obtain ⟨h1, h2, h3, h4, h5⟩ := h
         and_intros <;> first | omega | assumption)
      | (obtain ⟨t1, t2, t3, t4, t5, t6, t7, t8⟩ := T (WorkerPc.done false) _ hget
         simp only [WorkerPc.hasRecv, WorkerPc.sawClosed, Bool.false_eq_true, if_false, if_true,
           Nat.add_zero] at t6 t7
         simp only [SignalInv, State.received, hm, List.length_set] at h ⊢
         obtain ⟨h1, h2⟩ := h
         and_intros <;> first | omega | assumption)
  · rename_i hget
    obtain ⟨t1, t2, t3, t4, t5, t6, t7, t8⟩ := T (WorkerPc.got ok) _ hget
    simp only [WorkerPc.hasRecv, WorkerPc.sawClosed, Bool.false_eq_true, if_false, if_true,
      Nat.add_zero] at t6 t7
    refine signalInv_congr s _ ?_ ?_ t6 t7 ?_ h <;> simp
  · rename_i b hget
    obtain ⟨t1, t2, t3, t4, t5, t6, t7, t8⟩ := T (WorkerPc.mid b) _ hget
    simp only [WorkerPc.hasRecv, WorkerPc.sawClosed, Bool.false_eq_true, if_false, if_true,
      Nat.add_zero] at t6 t7
    refine signalInv_congr s _ ?_ ?_ t6 t7 ?_ h <;> simp
  · rename_i hget
    obtain ⟨t1, t2, t3, t4, t5, t6, t7, t8⟩ := T WorkerPc.sel _ hget
    simp only [WorkerPc.hasRecv, WorkerPc.sawClosed, Bool.false_eq_true, if_false, if_true,
      Nat.add_zero] at t6 t7
    refine signalInv_congr s _ ?_ ?_ t6 t7 ?_ h <;> simp
  · rename_i hget
    obtain ⟨t1, t2, t3, t4, t5, t6, t7, t8⟩ := T WorkerPc.sel _ hget
    simp only [WorkerPc.hasRecv, WorkerPc.sawClosed, Bool.false_eq_true, if_false, if_true,
      Nat.add_zero] at t6 t7
    refine signalInv_congr s _ ?_ ?_ t6 t7 ?_ h <;> simp
  · exact h

theorem signalInv_reporterStep (p : Bool) (s : State) (h : SignalInv s) :
    SignalInv (reporterStep p s) := by
  unfold reporterStep
  cases hr : s.reporter <;> cases hm : s.main <;> cases ht : s.tickPending <;> cases p <;>
    simp only [SignalInv, State.received, hr, hm, ht, reduceCtorEq, if_false, if_true, ne_eq,
      not_false_eq_true, and_true, true_and, Nat.add_zero, not_true_eq_false, and_false, false_and,
      Bool.false_eq_true, Bool.and_true, Bool.and_false, Bool.and_self,
      ReporterPc.done.injEq] at h ⊢ <;>
    first
    | exact h
    | omega

theorem signalInv_tickStep (s : State) (h : SignalInv s) : SignalInv (tickStep s) := by
  unfold tickStep
  cases hr : s.reporter <;> cases hm : s.main <;>
    simp only [SignalInv, State.received, hr, hm, reduceCtorEq, if_false, if_true, ne_eq,
      not_false_eq_true, and_true, true_and, Nat.add_zero, not_true_eq_false, and_false, false_and,
      Bool.false_eq_true, Bool.and_true, Bool.and_false, Bool.and_self,
      ReporterPc.done.injEq] at h ⊢ <;>
    exact h

theorem signalInv_mainStep (s : State) (h : SignalInv s) : SignalInv (mainStep s) := by
  unfold mainStep ShutDown
  cases hm : s.main
  case send i =>
    by_cases hlt : i < s.workers.length <;> rcases hr : s.reporter with _ | _ | _ | (_ | _) <;>
    simp only [SignalInv, State.received, hr, hm, hlt, reduceCtorEq, if_false, if_true, ne_eq,
      not_false_eq_true, and_true, true_and, Nat.add_zero, not_true_eq_false, and_false, false_and,
      Bool.false_eq_true, Bool.and_true, Bool.and_false, Bool.and_self,
      ReporterPc.done.injEq] at h ⊢ <;>
    (try casesm* _ ∧ _) <;>
    (try and_intros) <;>
    first
    | assumption
    | omega
  all_goals
    rcases hr : s.reporter with _ | _ | _ | (_ | _) <;>
    simp only [SignalInv, State.received, hr, hm, reduceCtorEq, if_false, if_true, ne_eq,
      not_false_eq_true, and_true, true_and, Nat.add_zero, not_true_eq_false, and_false, false_and,
      Bool.false_eq_true, Bool.and_true, Bool.and_false, Bool.and_self,
      ReporterPc.done.injEq] at h ⊢ <;>
    (try casesm* _ ∧ _) <;>
    (try and_intros) <;>
    (try first
    | assumption
    | omega)

theorem signalInv_step (e : Event) (s : State) (h : SignalInv s) : SignalInv (step e s) := by
  cases e with
  | worker i ok => exact signalInv_workerStep i ok s h
  | reporter p => exact signalInv_reporterStep p s h
  | tick => exact signalInv_tickStep s h
  | main => exact signalInv_mainStep s h

/-- After the close at most one worker is live. -/
theorem closed_live_le_one (s : State) (h : SignalInv s) (hc : s.closed = true) :
    s.workers.countP WorkerPc.isLive ≤ 1 := by
  obtain ⟨r1, r2, r3⟩ := tally_rel s.workers
  have hle : (if s.reporter = ReporterPc.done true then 1 else 0 : Nat) ≤ 1 := by
    split <;> omega
  cases hm : s.main <;> simp only [State.closed, hm, reduceCtorEq] at hc <;>
    simp only [SignalInv, State.received, hm] at h <;> omega

theorem readInv_mainStep (s : State) (hc : CountInv s) (hs : SignalInv s) (h : ReadInv s) :
    ReadInv (mainStep s) := by
  obtain ⟨r1, r2, r3⟩ := tally_rel s.workers
  obtain ⟨c1, c2, c3, c4, c5⟩ := hc
  unfold mainStep ShutDown
  cases hm : s.main
  case send i =>
    by_cases hlt : i < s.workers.length <;> by_cases hw : s.reporter = ReporterPc.wait <;>
      simp only [ReadInv, hlt, hw, if_true, if_false] <;> intro _ <;> trivial
  case sleep => simp only [ReadInv]; intro _; trivial
  case parked k => simp only [ReadInv, hm]; intro _; trivial
  all_goals
    have hl := closed_live_le_one s hs (by simp [State.closed, hm])
    simp only [ReadInv, State.calls, hm, wrapInt32] at h c1 c2 c3 ⊢
    intro hb
    have h' := h hb
    and_intros <;> omega

theorem readInv_congr (s t : State) (hm : t.main = s.main) (hw : t.workers = s.workers)
    (ho : t.okCalls = s.okCalls) (he : t.errCalls = s.errCalls) (h : ReadInv s) :
    ReadInv t := by
  simp only [ReadInv, State.calls, hm, hw, ho, he] at h ⊢
  exact h

theorem readInv_reporterStep (p : Bool) (s : State) (h : ReadInv s) :
    ReadInv (reporterStep p s) := by
  unfold reporterStep
  cases hr : s.reporter <;> cases hm : s.main <;> cases ht : s.tickPending <;> cases p <;>
    simp only [ReadInv, State.calls, hr, hm, ht, if_false, if_true,
      Bool.false_eq_true, Bool.and_true, Bool.and_false, Bool.and_self] at h ⊢ <;>
    exact h

theorem readInv_tickStep (s : State) (h : ReadInv s) : ReadInv (tickStep s) := by
  unfold tickStep
  split
  · exact readInv_congr s _ rfl rfl rfl rfl h
  · exact readInv_congr s _ rfl rfl rfl rfl h

theorem readInv_workerStep (i : Nat) (ok : Bool) (s : State)
    (h : ReadInv s) : ReadInv (workerStep i ok s) := by
  have T := fun a old h => set_tally s.workers i a old h
  simp only [WorkerPc.isReq, WorkerPc.isGot, WorkerPc.isMid, WorkerPc.pendOk, WorkerPc.pendErr,
    WorkerPc.hasRecv, WorkerPc.sawClosed, WorkerPc.isLive] at T
  unfold workerStep
  rw [List.get?_eq_getElem?]
  split
  · exact h
  · rename_i hget
    cases hm : s.main <;> simp only [hm]
    case sleep => simp only [ReadInv]; intro _; trivial
    case send k => simp only [ReadInv]; intro _; trivial
    case parked k => simp only [ReadInv]; intro _; trivial
    all_goals
      obtain ⟨t1, t2, t3, t4, t5, t6, t7, t8⟩ := T (WorkerPc.done false) _ hget
      simp only [ReadInv, State.calls, hm] at h ⊢
      simp at t1 t2 t3 t4 t5
      intro hb
      have h' := h hb
      (try and_intros) <;> first | trivial | omega
  · rename_i hget
    obtain ⟨t1, t2, t3, t4, t5, t6, t7, t8⟩ := T (WorkerPc.got ok) _ hget
    cases hm : s.main <;> cases ok <;>
      simp only [ReadInv, State.calls, hm] at h ⊢ <;>
      simp at t1 t2 t3 t4 t5 ⊢ <;>
      (try (intro hb
            have h' := h (by omega)
            (try and_intros) <;> first | trivial | omega))
  · rename_i b hget
    obtain ⟨t1, t2, t3, t4, t5, t6, t7, t8⟩ := T (WorkerPc.mid b) _ hget
    cases hm : s.main <;> cases b <;>
      simp only [ReadInv, State.calls, hm] at h ⊢ <;>
      simp at t1 t2 t3 t4 t5 ⊢ <;>
      (try (intro hb
            have h' := h (by omega)
            (try and_intros) <;> first | trivial | omega))
  · rename_i hget
    obtain ⟨t1, t2, t3, t4, t5, t6, t7, t8⟩ := T WorkerPc.sel _ hget
    cases hm : s.main <;>
      simp only [ReadInv, State.calls, hm] at h ⊢ <;>
      simp at t1 t2 t3 t4 t5 ⊢ <;>
      (try (intro hb
            have h' := h (by omega)
            (try and_intros) <;> first | trivial | omega))
  · rename_i hget
    obtain ⟨t1, t2, t3, t4, t5, t6, t7, t8⟩ := T WorkerPc.sel _ hget
    cases hm : s.main <;>
      simp only [ReadInv, State.calls, hm] at h ⊢ <;>
      simp at t1 t2 t3 t4 t5 ⊢ <;>
      (try (intro hb
            have h' := h (by omega)
            (try and_intros) <;> first | trivial | omega))
  · exact h

theorem readInv_step (e : Event) (s : State) (hc : CountInv s) (hs : SignalInv s)
    (h : ReadInv s) : ReadInv (step e s) := by
  cases e with
  | worker i ok => exact readInv_workerStep i ok s h
  | reporter p => exact readInv_reporterStep p s h
  | tick => exact readInv_tickStep s h
  | main => exact readInv_mainStep s hc hs h

theorem inv_init (W : Nat) : Inv (init W) := by
  refine ⟨?_, ?_, ?_⟩
  · simp [CountInv, init, wrapInt32, List.countP_replicate, WorkerPc.isGot, WorkerPc.pendOk,
      WorkerPc.pendErr]
  · simp [SignalInv, init, State.received, List.countP_replicate, WorkerPc.hasRecv,
      WorkerPc.sawClosed]
  · simp [ReadInv, init]

theorem inv_step (e : Event) (s : State) (h : Inv s) : Inv (step e s) :=
  ⟨countInv_step e s h.1, signalInv_step e s h.2.1, readInv_step e s h.1 h.2.1 h.2.2⟩

theorem run_nil (s : State) : run [] s = s := rfl

theorem run_cons (e : Event) (tr : List Event) (s : State) :
    run (e :: tr) s = run tr (step e s) := rfl

theorem run_append (tr1 tr2 : List Event) (s : State) :
    run (tr1 ++ tr2) s = run tr2 (run tr1 s) := by
  simp [run, List.foldl_append]

theorem inv_run (tr : List Event) (s : State) (h : Inv s) : Inv (run tr s) := by
  induction tr generalizing s with
  | nil => exact h
  | cons e tr ih => exact ih (step e s) (inv_step e s h)

theorem inv_reach (W : Nat) (tr : List Event) : Inv (run tr (init W)) :=
  inv_run tr (init W) (inv_init W)

/-! ## Sequential claims -/

theorem checkUrlField_nil (isURL : String → Bool) (name v : String) :
    checkUrlField isURL name v = [] ↔ (isURL v = true ∧ v ≠ "") := by
  unfold checkUrlField
  cases h1 : isURL v <;> by_cases h2 : v = "" <;> simp [h2]

theorem checkIntField_nil (name : String) (v : Int) :
    checkIntField name v = [] ↔ 0 < v := by
  unfold checkIntField
  by_cases h1 : v = 0 <;> by_cases h2 : v > 0 <;> simp [h1, h2]

theorem New_isSome (isURL : String → Bool) (c : CC) :
    (New isURL c).isSome = true ↔ validateStruct isURL c ≠ [] := by
  unfold New
  cases validateStruct isURL c <;> simp

/-- C5: `CC.New` returns a validation error exactly when `Url` is empty or fails the
validator's `url` predicate, or `Worker <= 0`, or `Time <= 0`; in particular it returns
an error when `Worker <= 0` or `Time <= 0` or `Url` is empty, and `nil` when `Url` is
well-formed and non-empty, `Worker > 0` and `Time > 0`. -/
theorem New_error_iff (isURL : String → Bool) (c : CC) :
    ((New isURL c).isSome = true ↔
        (c.Url = "" ∨ isURL c.Url = false ∨ c.Worker ≤ 0 ∨ c.Time ≤ 0)) ∧
    ((c.Worker ≤ 0 ∨ c.Time ≤ 0 ∨ c.Url = "") → (New isURL c).isSome = true) ∧
    ((isURL c.Url = true ∧ c.Url ≠ "" ∧ 0 < c.Worker ∧ 0 < c.Time) → New isURL c = none) := by
  have key : (New isURL c).isSome = true ↔
      (c.Url = "" ∨ isURL c.Url = false ∨ c.Worker ≤ 0 ∨ c.Time ≤ 0) := by
    rw [New_isSome]
    unfold validateStruct
    simp only [ne_eq, List.append_eq_nil, checkUrlField_nil, checkIntField_nil]
    constructor
    · intro h
      by_cases h1 : c.Url = ""
      · exact Or.inl h1
      · by_cases h2 : isURL c.Url = false
        · exact Or.inr (Or.inl h2)
        · simp at h2
          by_cases h3 : c.Worker ≤ 0
          · exact Or.inr (Or.inr (Or.inl h3))
          · right; right; right
            by_contra h4
            exact h ⟨⟨⟨h2, h1⟩, by omega⟩, by omega⟩
    · rintro (h | h | h | h) ⟨⟨⟨h1, h2⟩, h3⟩, h4⟩
      · exact h2 h
      · simp [h1] at h
      · omega
      · omega
  refine ⟨key, ?_, ?_⟩
  · intro h
    exact key.mpr (by tauto)
  · intro h
    have : ¬ ((New isURL c).isSome = true) := by
      rw [key]
      intro h'
      rcases h' with h' | h' | h' | h'
      · exact h.2.1 h'
      · simp [h.1] at h'
      · omega
      · omega
    cases hn : New isURL c with
    | none => rfl
    | some v => simp [hn] at this

/-- C7: the average shown by `main` for final total `T` and configured duration `D` is
the exact quotient `T / D`, and it is shown only on a path where `D` is not `0`: with
`D = 0` (indeed with `D <= 0`) validation stops `main` before any division and nothing
is shown; with a valid configuration the average is shown exactly when `T > 0`. -/
theorem mainAverage_spec (isURL : String → Bool) (c : CC) (T : Int) :
    (∀ r, mainAverage isURL c T = some r → c.Time ≠ 0 ∧ r = (T : ℚ) / (c.Time : ℚ)) ∧
    (c.Time = 0 → mainAverage isURL c T = none) ∧
    (New isURL c = none → 0 < T → mainAverage isURL c T = some ((T : ℚ) / (c.Time : ℚ))) ∧
    (New isURL c = none → T ≤ 0 → mainAverage isURL c T = none) := by
  have hv := (New_error_iff isURL c).1
  refine ⟨?_, ?_, ?_, ?_⟩
  · intro r hr
    unfold mainAverage at hr
    cases hn : New isURL c with
    | some v => simp [hn] at hr
    | none =>
      simp only [hn, overallRPS] at hr
      have h0 : ¬ (c.Time ≤ 0) := by
        intro h
        have := hv.mpr (Or.inr (Or.inr (Or.inr h)))
        simp [hn] at this
      split at hr
      · simp at hr
        exact ⟨by omega, hr.symm⟩
      · simp at hr
  · intro h
    have := hv.mpr (Or.inr (Or.inr (Or.inr (by omega))))
    unfold mainAverage
    cases hn : New isURL c with
    | some v => rfl
    | none => simp [hn] at this
  · intro hn hT
    simp [mainAverage, hn, overallRPS, hT]
  · intro hn hT
    have : ¬ (T > 0) := by omega
    simp [mainAverage, hn, overallRPS, this]

theorem reporterRun_snoc (ts : List Int) (t : Int) :
    reporterRun (ts ++ [t]) = reporterTick (reporterRun ts) t := by
  simp [reporterRun, List.foldl_append]

theorem wrapInt32_emod (x : Int) : wrapInt32 x % 4294967296 = x % 4294967296 := by
  unfold wrapInt32
  omega

theorem getLastD_cons_eq (x p : Int) (xs : List Int) :
    (x :: xs).getLastD p = xs.getLastD x := by
  cases xs <;> simp [List.getLastD]

theorem zipWith_shift_snoc (f : Int → Int → Int) (ts : List Int) (p t : Int) :
    List.zipWith f (ts ++ [t]) (p :: (ts ++ [t]))
      = List.zipWith f ts (p :: ts) ++ [f t (ts.getLastD p)] := by
  induction ts generalizing p with
  | nil => simp
  | cons x xs ih =>
    have := ih x
    simp only [List.cons_append, List.zipWith_cons_cons, getLastD_cons_eq]
    rw [this]

/-- C8: for every sequence of loaded totals, the interval value rendered at tick `i` is
`t_i - t_(i-1)` in `int32` arithmetic with `t_0 = 0`, the previous value is the last
loaded total after each tick, and the rendered values sum to the last loaded total
modulo `2^32`. -/
theorem reporter_intervals (ts : List Int) :
    (reporterRun ts).rendered = List.zipWith subInt32 ts (0 :: ts) ∧
    (reporterRun ts).lastTotalRequests = ts.getLastD 0 ∧
    (reporterRun ts).rendered.sum % 4294967296 = ts.getLastD 0 % 4294967296 := by
  induction ts using List.reverseRecOn with
  | nil => simp [reporterRun, Ticker.start]
  | append_singleton ts t ih =>
    obtain ⟨h1, h2, h3⟩ := ih
    rw [reporterRun_snoc]
    refine ⟨?_, ?_, ?_⟩
    · simp only [reporterTick, h1, h2]
      exact (zipWith_shift_snoc subInt32 ts 0 t).symm
    · simp [reporterTick]
    · simp only [reporterTick, List.sum_append, List.sum_cons, List.sum_nil, add_zero]
      have := wrapInt32_emod (t - (reporterRun ts).lastTotalRequests)
      simp only [subInt32]
      rw [h2] at this ⊢
      simp only [List.getLastD_concat] 
      omega

theorem tmod_of_nonneg (t : Int) (h : 0 ≤ t) : Int.tmod t 10 = t % 10 := by
  rw [Int.tmod_eq_emod h (by decide)]

/-- C9 (amended): for every non-negative clock reading `t`, `random` on the list built by
`newUA` returns `list[t % 10]`, the index is within `0..9`, the result is an entry of the
fixed 10-element list, and the call does not fail. -/
theorem random_of_nonneg (t : Int) (h : 0 ≤ t) :
    newUA.list.length = 10 ∧
    (t % 10).toNat < 10 ∧
    newUA.random t = newUA.list.get? (t % 10).toNat ∧
    (∃ ua, ua ∈ newUA.list ∧ newUA.random t = some ua) := by
  have hlen : newUA.list.length = 10 := by decide
  have h1 : 0 ≤ t % 10 := Int.emod_nonneg t (by decide)
  have h2 : t % 10 < 10 := Int.emod_lt_of_pos t (by decide)
  have h3 : (t % 10).toNat < 10 := by omega
  have h4 : newUA.random t = newUA.list.get? (t % 10).toNat := by
    unfold useragent.random
    simp only [hlen, Nat.cast_ofNat, tmod_of_nonneg t h]
    rw [if_pos ⟨h1, h2⟩]
  refine ⟨hlen, h3, h4, ?_⟩
  have h5 : (t % 10).toNat < newUA.list.length := by omega
  refine ⟨newUA.list[(t % 10).toNat], List.getElem_mem _, ?_⟩
  rw [h4, List.get?_eq_getElem?, List.getElem?_eq_getElem h5]

/-- C9 (witness). -/
theorem random_of_nonneg_witness :
    (0 : Int) ≤ 1234567 ∧
    newUA.list.length = 10 ∧
    ((1234567 : Int) % 10).toNat < 10 ∧
    newUA.random 1234567 = newUA.list.get? ((1234567 : Int) % 10).toNat ∧
    (∃ ua, ua ∈ newUA.list ∧ newUA.random 1234567 = some ua) :=
  ⟨by decide, random_of_nonneg 1234567 (by decide)⟩

/-- C9 (counterexample): at the `int64` clock reading `-1` Go's remainder is `-1`, an
index outside `0..9`, and `random` fails with an out-of-range index. -/
theorem random_fails_at_negative_clock :
    Int.tmod (-1) 10 = -1 ∧ newUA.random (-1) = none := by
  decide

/-! ## Counters -/

theorem wrapInt32_succ (x : Int) : wrapInt32 (wrapInt32 x + 1) = wrapInt32 (x + 1) := by
  unfold wrapInt32
  omega

theorem wrapInt32_of_range (x : Int) (h0 : 0 ≤ x) (h1 : x < 2147483648) : wrapInt32 x = x := by
  unfold wrapInt32
  omega

/-- The state after worker `0` alone has completed `n` successful requests. -/
theorem run_requests (n : Nat) :
    run (requests n) (init 1) =
      { init 1 with
        report := { TotalRequests := wrapInt32 n, ErrorCount := 0, SuccessCount := wrapInt32 n }
        okCalls := n } := by
  induction n with
  | zero => simp [requests, run, init, wrapInt32]
  | succ n ih =>
    simp only [requests, run_append, ih]
    simp [run, step, workerStep, init, List.replicate, addInt32, wrapInt32_succ]

/-- In a reachable state the counters are the `int32` images of the increment counts,
and these counts are non-negative and bounded by the number of calls. -/
theorem counters_reach (W : Nat) (tr : List Event) :
    (run tr (init W)).report.TotalRequests = wrapInt32 (run tr (init W)).incT ∧
    (run tr (init W)).report.SuccessCount = wrapInt32 (run tr (init W)).incS ∧
    (run tr (init W)).report.ErrorCount = wrapInt32 (run tr (init W)).incE ∧
    0 ≤ (run tr (init W)).incT ∧ 0 ≤ (run tr (init W)).incS ∧ 0 ≤ (run tr (init W)).incE ∧
    (run tr (init W)).incT ≤ (run tr (init W)).calls ∧
    (run tr (init W)).incS ≤ (run tr (init W)).okCalls ∧
    (run tr (init W)).incE ≤ (run tr (init W)).errCalls ∧
    (run tr (init W)).incT
      = (run tr (init W)).incS + (run tr (init W)).incE
        + ((run tr (init W)).workers.countP WorkerPc.isMid : Int) := by
  obtain ⟨⟨c1, c2, c3, c4, c5⟩, _, _⟩ := inv_reach W tr
  obtain ⟨r1, r2, r3⟩ := tally_rel (run tr (init W)).workers
  simp only [State.incT, State.incS, State.incE, State.calls]
  refine ⟨c1, c2, c3, ?_, ?_, ?_, ?_, ?_, ?_, ?_⟩ <;> omega

/-- C1: for every worker count `W > 0` and every interleaving, at every state in which no
worker is between its two increments (in particular once all workers have stopped),
`TotalRequests == SuccessCount + ErrorCount`, for runs of fewer than `2^31` requests. -/
theorem total_eq_success_add_error (W : Nat) (hW : 0 < W) (tr : List Event)
    (hq : (run tr (init W)).quiescent)
    (hb : (run tr (init W)).calls < 2147483648) :
    (run tr (init W)).report.TotalRequests
      = (run tr (init W)).report.SuccessCount + (run tr (init W)).report.ErrorCount := by
  obtain ⟨c1, c2, c3, p1, p2, p3, b1, b2, b3, e⟩ := counters_reach W tr
  have hmid : (run tr (init W)).workers.countP WorkerPc.isMid = 0 := by
    rw [List.countP_eq_zero]
    intro w hw
    simp [hq w hw]
  simp only [State.calls] at hb b1
  rw [c1, c2, c3, wrapInt32_of_range _ p1 (by omega), wrapInt32_of_range _ p2 (by omega),
    wrapInt32_of_range _ p3 (by omega), e, hmid]
  simp

/-- C1 (witness): two workers, one successful and one failed request completed, a third
request outstanding. -/
theorem total_eq_success_add_error_witness :
    0 < 2 ∧
    (run scheduleCounting (init 2)).quiescent ∧
    (run scheduleCounting (init 2)).calls < 2147483648 ∧
    (run scheduleCounting (init 2)).report.TotalRequests
      = (run scheduleCounting (init 2)).report.SuccessCount
        + (run scheduleCounting (init 2)).report.ErrorCount :=
  ⟨by decide, by unfold State.quiescent; decide, by decide,
    total_eq_success_add_error 2 (by decide) scheduleCounting
      (by unfold State.quiescent; decide) (by decide)⟩

theorem progress_workerStep (i : Nat) (ok : Bool) (s : State) :
    s.okCalls ≤ (workerStep i ok s).okCalls ∧ s.errCalls ≤ (workerStep i ok s).errCalls ∧
    s.incT ≤ (workerStep i ok s).incT ∧ s.incS ≤ (workerStep i ok s).incS ∧
    s.incE ≤ (workerStep i ok s).incE := by
  have T := fun a old h => set_tally s.workers i a old h
  simp only [WorkerPc.isReq, WorkerPc.isGot, WorkerPc.isMid, WorkerPc.pendOk, WorkerPc.pendErr,
    WorkerPc.hasRecv, WorkerPc.sawClosed, WorkerPc.isLive] at T
  unfold workerStep
  rw [List.get?_eq_getElem?]
  split
  · simp
  · rename_i hget
    split
    all_goals
      first
      | (have hT := T WorkerPc.req _ hget
         simp only [State.incT, State.incS, State.incE]
         simp at hT
         omega)
      | (have hT := T (WorkerPc.done true) _ hget
         simp only [State.incT, State.incS, State.incE]
         simp at hT
         omega)
      | (have hT := T (WorkerPc.done false) _ hget
         simp only [State.incT, State.incS, State.incE]
         simp at hT
         omega)
  · rename_i hget
    have := T (WorkerPc.got ok) _ hget
    simp only [State.incT, State.incS, State.incE]
    cases ok <;> simp at this ⊢ <;> omega
  · rename_i b hget
    have := T (WorkerPc.mid b) _ hget
    simp only [State.incT, State.incS, State.incE]
    cases b <;> simp at this ⊢ <;> omega
  · rename_i hget
    have := T WorkerPc.sel _ hget
    simp only [State.incT, State.incS, State.incE]
    simp at this ⊢
    omega
  · rename_i hget
    have := T WorkerPc.sel _ hget
    simp only [State.incT, State.incS, State.incE]
    simp at this ⊢
    omega
  · simp

theorem progress_step (e : Event) (s : State) :
    s.okCalls ≤ (step e s).okCalls ∧ s.errCalls ≤ (step e s).errCalls ∧
    s.incT ≤ (step e s).incT ∧ s.incS ≤ (step e s).incS ∧ s.incE ≤ (step e s).incE := by
  cases e with
  | worker i ok => exact progress_workerStep i ok s
  | reporter p =>
    obtain ⟨a, b, c, d⟩ := reporterStep_frame p s
    simp [step, State.incT, State.incS, State.incE, a, c, d]
  | tick =>
    obtain ⟨a, b, c, d, _⟩ := tickStep_frame s
    simp [step, State.incT, State.incS, State.incE, a, c, d]
  | main =>
    obtain ⟨a, b, c, d⟩ := mainStep_frame s
    simp [step, State.incT, State.incS, State.incE, a, c, d]

theorem progress_run (tr : List Event) (s : State) :
    s.okCalls ≤ (run tr s).okCalls ∧ s.errCalls ≤ (run tr s).errCalls ∧
    s.incT ≤ (run tr s).incT ∧ s.incS ≤ (run tr s).incS ∧ s.incE ≤ (run tr s).incE := by
  induction tr generalizing s with
  | nil => simp [run]
  | cons e tr ih =>
    obtain ⟨a1, a2, a3, a4, a5⟩ := progress_step e s
    obtain ⟨b1, b2, b3, b4, b5⟩ := ih (step e s)
    rw [run_cons]
    refine ⟨?_, ?_, ?_, ?_, ?_⟩ <;> omega

/-- C3 (amended): in every run of fewer than `2^31` completed requests, each of the three
counters is non-negative and is not smaller at a later observation than at an earlier
one. -/
theorem counters_monotone (W : Nat) (tr tr' : List Event)
    (hb : (run (tr ++ tr') (init W)).calls < 2147483648) :
    0 ≤ (run tr (init W)).report.TotalRequests ∧
    (run tr (init W)).report.TotalRequests ≤ (run (tr ++ tr') (init W)).report.TotalRequests ∧
    0 ≤ (run tr (init W)).report.SuccessCount ∧
    (run tr (init W)).report.SuccessCount ≤ (run (tr ++ tr') (init W)).report.SuccessCount ∧
    0 ≤ (run tr (init W)).report.ErrorCount ∧
    (run tr (init W)).report.ErrorCount ≤ (run (tr ++ tr') (init W)).report.ErrorCount := by
  obtain ⟨c1, c2, c3, p1, p2, p3, b1, b2, b3, _⟩ := counters_reach W tr
  obtain ⟨d1, d2, d3, q1, q2, q3, e1, e2, e3, _⟩ := counters_reach W (tr ++ tr')
  have m := progress_run tr' (run tr (init W))
  rw [← run_append] at m
  obtain ⟨m1, m2, m3, m4, m5⟩ := m
  simp only [State.calls] at hb b1 e1
  rw [c1, c2, c3, d1, d2, d3,
    wrapInt32_of_range _ p1 (by omega), wrapInt32_of_range _ p2 (by omega),
    wrapInt32_of_range _ p3 (by omega), wrapInt32_of_range _ q1 (by omega),
    wrapInt32_of_range _ q2 (by omega), wrapInt32_of_range _ q3 (by omega)]
  exact ⟨p1, m3, p2, m4, p3, m5⟩

/-- C3 (witness): the counters during and after the schedule `scheduleCounting`. -/
theorem counters_monotone_witness :
    (run (scheduleCounting.take 4 ++ scheduleCounting.drop 4) (init 2)).calls < 2147483648 ∧
    0 ≤ (run (scheduleCounting.take 4) (init 2)).report.TotalRequests ∧
    (run (scheduleCounting.take 4) (init 2)).report.TotalRequests
      ≤ (run (scheduleCounting.take 4 ++ scheduleCounting.drop 4) (init 2)).report.TotalRequests ∧
    0 ≤ (run (scheduleCounting.take 4) (init 2)).report.SuccessCount ∧
    (run (scheduleCounting.take 4) (init 2)).report.SuccessCount
      ≤ (run (scheduleCounting.take 4 ++ scheduleCounting.drop 4) (init 2)).report.SuccessCount ∧
    0 ≤ (run (scheduleCounting.take 4) (init 2)).report.ErrorCount ∧
    (run (scheduleCounting.take 4) (init 2)).report.ErrorCount
      ≤ (run (scheduleCounting.take 4 ++ scheduleCounting.drop 4) (init 2)).report.ErrorCount :=
  ⟨by decide, counters_monotone 2 (scheduleCounting.take 4) (scheduleCounting.drop 4) (by decide)⟩

/-- C3 (counterexample): worker `0` alone completes `2^31 - 1` successful requests, which
leaves `TotalRequests` at `2147483647`; one more request takes it to `-2147483648`, a
negative value smaller than the one observed before. -/
theorem counter_wraps_negative :
    (run (requests 2147483647) (init 1)).report.TotalRequests = 2147483647 ∧
    (run (requests 2147483647 ++ List.replicate 4 (Event.worker 0 true)) (init 1)).report.TotalRequests
      = -2147483648 := by
  have h : requests 2147483647 ++ List.replicate 4 (Event.worker 0 true)
      = requests 2147483648 := rfl
  rw [h, run_requests, run_requests]
  constructor <;> simp [wrapInt32]

/-- C4 (amended): at every point of a run at which no worker holds a `get` result that is
not yet fully counted, `SuccessCount` and `ErrorCount` are the `int32` images of the
numbers of completed `get` calls that returned a nil error and a non-nil error, hence
equal to these numbers in runs of fewer than `2^31` requests; and in every run in which
every `get` call returned a nil error, `ErrorCount == 0` and
`SuccessCount == TotalRequests`, in every run in which every `get` call returned an
error, `SuccessCount == 0` and `ErrorCount == TotalRequests`. -/
theorem success_error_counts (W : Nat) (tr : List Event)
    (hq : (run tr (init W)).settled) :
    (run tr (init W)).report.SuccessCount = wrapInt32 (run tr (init W)).okCalls ∧
    (run tr (init W)).report.ErrorCount = wrapInt32 (run tr (init W)).errCalls ∧
    ((run tr (init W)).calls < 2147483648 →
      (run tr (init W)).report.SuccessCount = (run tr (init W)).okCalls ∧
      (run tr (init W)).report.ErrorCount = (run tr (init W)).errCalls) ∧
    ((run tr (init W)).errCalls = 0 →
      (run tr (init W)).report.ErrorCount = 0 ∧
      (run tr (init W)).report.SuccessCount = (run tr (init W)).report.TotalRequests) ∧
    ((run tr (init W)).okCalls = 0 →
      (run tr (init W)).report.SuccessCount = 0 ∧
      (run tr (init W)).report.ErrorCount = (run tr (init W)).report.TotalRequests) := by
  obtain ⟨c1, c2, c3, p1, p2, p3, b1, b2, b3, e⟩ := counters_reach W tr
  obtain ⟨r1, r2, r3⟩ := tally_rel (run tr (init W)).workers
  have hgot : (run tr (init W)).workers.countP WorkerPc.isGot = 0 := by
    rw [List.countP_eq_zero]
    intro w hw
    simp [(hq w hw).1]
  have hmid : (run tr (init W)).workers.countP WorkerPc.isMid = 0 := by
    rw [List.countP_eq_zero]
    intro w hw
    simp [(hq w hw).2]
  have hS : (run tr (init W)).incS = (run tr (init W)).okCalls := by
    simp only [State.incS]; omega
  have hE : (run tr (init W)).incE = (run tr (init W)).errCalls := by
    simp only [State.incE]; omega
  have hT : (run tr (init W)).incT
      = ((run tr (init W)).okCalls : Int) + ((run tr (init W)).errCalls : Int) := by
    simp only [State.incT]; omega
  rw [hS] at c2
  rw [hE] at c3
  rw [hT] at c1
  refine ⟨c2, c3, ?_, ?_, ?_⟩
  · intro hb
    simp only [State.calls] at hb
    rw [c2, c3, wrapInt32_of_range _ (by omega) (by omega),
      wrapInt32_of_range _ (by omega) (by omega)]
    exact ⟨rfl, rfl⟩
  · intro h0
    rw [c1, c2, c3, h0]
    simp [wrapInt32]
  · intro h0
    rw [c1, c2, c3, h0]
    simp [wrapInt32]

/-- C4 (witness): worker `0` alone completes three successful requests. -/
theorem success_error_counts_witness :
    (run (requests 3) (init 1)).settled ∧
    (run (requests 3) (init 1)).report.SuccessCount
      = wrapInt32 (run (requests 3) (init 1)).okCalls ∧
    (run (requests 3) (init 1)).report.ErrorCount
      = wrapInt32 (run (requests 3) (init 1)).errCalls ∧
    ((run (requests 3) (init 1)).calls < 2147483648 →
      (run (requests 3) (init 1)).report.SuccessCount = (run (requests 3) (init 1)).okCalls ∧
      (run (requests 3) (init 1)).report.ErrorCount = (run (requests 3) (init 1)).errCalls) ∧
    ((run (requests 3) (init 1)).errCalls = 0 →
      (run (requests 3) (init 1)).report.ErrorCount = 0 ∧
      (run (requests 3) (init 1)).report.SuccessCount
        = (run (requests 3) (init 1)).report.TotalRequests) ∧
    ((run (requests 3) (init 1)).okCalls = 0 →
      (run (requests 3) (init 1)).report.SuccessCount = 0 ∧
      (run (requests 3) (init 1)).report.ErrorCount
        = (run (requests 3) (init 1)).report.TotalRequests) :=
  ⟨by unfold State.settled; decide,
    success_error_counts 1 (requests 3) (by unfold State.settled; decide)⟩

/-- C4 (counterexample): after worker `0` alone has completed `2^31` successful requests
no result is pending, `2147483648` calls have returned a nil error, and `SuccessCount`
is `-2147483648`. -/
theorem success_count_differs_from_calls :
    (run (requests 2147483648) (init 1)).settled ∧
    (run (requests 2147483648) (init 1)).okCalls = 2147483648 ∧
    (run (requests 2147483648) (init 1)).report.SuccessCount = -2147483648 := by
  rw [run_requests]
  refine ⟨?_, rfl, ?_⟩
  · simp [State.settled, init, WorkerPc.isGot, WorkerPc.isMid]
  · simp [wrapInt32]

/-! ## Shutdown -/

theorem workerStep_length (i : Nat) (ok : Bool) (s : State) :
    (workerStep i ok s).workers.length = s.workers.length := by
  unfold workerStep
  split <;> (try split) <;> simp

theorem step_length (e : Event) (s : State) :
    (step e s).workers.length = s.workers.length := by
  cases e with
  | worker i ok => exact workerStep_length i ok s
  | reporter p => simp [step, (reporterStep_frame p s).1]
  | tick => simp [step, (tickStep_frame s).1]
  | main => simp [step, (mainStep_frame s).1]

theorem run_length (tr : List Event) (s : State) :
    (run tr s).workers.length = s.workers.length := by
  induction tr generalizing s with
  | nil => rfl
  | cons e tr ih => rw [run_cons, ih, step_length]

theorem reach_length (W : Nat) (tr : List Event) : (run tr (init W)).workers.length = W := by
  rw [run_length]
  simp [init]

theorem closed_step (e : Event) (s : State) (h : s.closed = true) :
    (step e s).closed = true := by
  cases e with
  | worker i ok =>
    simp only [step, workerStep]
    cases hm : s.main <;> simp [State.closed, hm] at h <;>
      split <;> simp [State.closed, hm]
  | reporter p =>
    simp only [step, reporterStep]
    cases hr : s.reporter <;> cases hm : s.main <;> cases ht : s.tickPending <;> cases p <;>
      simp [State.closed, hm] at h ⊢
  | tick =>
    simp only [step, tickStep]
    cases hm : s.main <;> simp [State.closed, hm] at h <;>
      split <;> simp [State.closed, hm]
  | main =>
    simp only [step, mainStep, ShutDown]
    cases hm : s.main <;> simp [State.closed, hm] at h <;> simp [State.closed, hm]

theorem closed_run (tr : List Event) (s : State) (h : s.closed = true) :
    (run tr s).closed = true := by
  induction tr generalizing s with
  | nil => exact h
  | cons e tr ih => exact ih (step e s) (closed_step e s h)

theorem workerStep_other (i j : Nat) (ok : Bool) (s : State) (h : i ≠ j) :
    (workerStep j ok s).workers[i]? = s.workers[i]? := by
  unfold workerStep
  split <;> (try split) <;> simp [List.getElem?_set_ne (Ne.symm h)]

theorem step_other (e : Event) (s : State) (i : Nat)
    (h : ∀ ok, e ≠ Event.worker i ok) : (step e s).workers[i]? = s.workers[i]? := by
  cases e with
  | worker j ok =>
    have hij : i ≠ j := by
      intro hij
      exact h ok (by rw [hij])
    exact workerStep_other i j ok s hij
  | reporter p => simp [step, (reporterStep_frame p s).1]
  | tick => simp [step, (tickStep_frame s).1]
  | main => simp [step, (mainStep_frame s).1]

/-- A worker that has returned stays returned. -/
theorem done_stable (e : Event) (s : State) (i : Nat) (b : Bool)
    (h : s.workers[i]? = some (WorkerPc.done b)) :
    (step e s).workers[i]? = some (WorkerPc.done b) := by
  by_cases he : ∀ ok, e ≠ Event.worker i ok
  · rw [step_other e s i he]
    exact h
  · push_neg at he
    obtain ⟨ok, rfl⟩ := he
    simp only [step, workerStep, List.get?_eq_getElem?, h]

/-- Once the channel is closed, a step of worker `i` brings it one step closer to its
return. -/
theorem togo_workerStep_closed (i : Nat) (ok : Bool) (s : State) (hc : s.closed = true) :
    (workerStep i ok s).togo i = s.togo i - 1 := by
  unfold State.togo
  cases hget : s.workers[i]? with
  | none => simp [workerStep, hget]
  | some w =>
    have hi : i < s.workers.length := by
      by_contra hn
      rw [List.getElem?_eq_none (by omega)] at hget
      simp at hget
    cases hm : s.main <;> simp [State.closed, hm] at hc <;>
      rcases w with _ | _ | b | b | b <;> (try cases b) <;>
      simp [workerStep, hget, hm, hi, WorkerPc.dist]

theorem stepsOf_cons (i : Nat) (e : Event) (tr : List Event) :
    stepsOf i (e :: tr) = stepsOf i [e] + stepsOf i tr := by
  simp only [stepsOf, List.countP_cons, List.countP_nil]
  omega

theorem togo_step_closed (e : Event) (s : State) (i : Nat) (hc : s.closed = true) :
    (step e s).togo i = s.togo i - stepsOf i [e] := by
  by_cases he : ∀ ok, e ≠ Event.worker i ok
  · have h0 : stepsOf i [e] = 0 := by
      cases e with
      | worker j ok =>
        have : j ≠ i := by
          intro hji
          exact he ok (by rw [hji])
        simp [stepsOf, this]
      | reporter p => simp [stepsOf]
      | tick => simp [stepsOf]
      | main => simp [stepsOf]
    simp only [State.togo, step_other e s i he, h0]
    rfl
  · push_neg at he
    obtain ⟨ok, rfl⟩ := he
    have h1 : stepsOf i [Event.worker i ok] = 1 := by simp [stepsOf]
    rw [h1]
    exact togo_workerStep_closed i ok s hc

theorem togo_run_closed (tr : List Event) (s : State) (i : Nat) (hc : s.closed = true) :
    (run tr s).togo i = s.togo i - stepsOf i tr := by
  induction tr generalizing s with
  | nil => simp [run, stepsOf]
  | cons e tr ih =>
    have hs := stepsOf_cons i e tr
    rw [run_cons, ih (step e s) (closed_step e s hc), togo_step_closed e s i hc]
    omega

theorem togo_le_four (s : State) (i : Nat) : s.togo i ≤ 4 := by
  unfold State.togo
  cases s.workers[i]? with
  | none => simp
  | some w => rcases w with _ | _ | b | b | b <;> simp [WorkerPc.dist]

theorem togo_zero (s : State) (i : Nat) (hi : i < s.workers.length) (h : s.togo i = 0) :
    ∃ b, s.workers[i]? = some (WorkerPc.done b) := by
  unfold State.togo at h
  rw [List.getElem?_eq_getElem hi] at h ⊢
  rcases hw : s.workers[i] with _ | _ | b | b | b <;> simp [hw, WorkerPc.dist] at h ⊢

/-- Once the channel is closed, no step makes a worker issue a request. -/
theorem no_new_request (e : Event) (s : State) (i : Nat) (hc : s.closed = true)
    (h : (step e s).workers[i]? = some WorkerPc.req) : s.workers[i]? = some WorkerPc.req := by
  by_cases he : ∀ ok, e ≠ Event.worker i ok
  · rw [step_other e s i he] at h
    exact h
  · push_neg at he
    obtain ⟨ok, rfl⟩ := he
    have ht := togo_workerStep_closed i ok s hc
    simp only [step] at h
    have h4 : (workerStep i ok s).togo i = 4 := by simp [State.togo, h, WorkerPc.dist]
    have := togo_le_four s i
    omega

theorem reporter_tally (r : ReporterPc) :
    (if r = ReporterPc.done true then 1 else 0) + (if r.isLive = true then 1 else 0) ≤ 1 ∧
    (r ≠ ReporterPc.done false →
      (if r = ReporterPc.done true then 1 else 0) + (if r.isLive = true then 1 else 0) = 1) := by
  rcases r with _ | _ | _ | (_ | _) <;> simp [ReporterPc.isLive]

/-- A blocked sender has an iteration left and a live observer to receive its value. -/
theorem live_of_parked (s : State) (h : SignalInv s) (k : Nat)
    (hm : s.main = MainPc.parked k) : k < s.workers.length ∧ 1 ≤ s.live := by
  obtain ⟨r1, r2, r3⟩ := tally_rel s.workers
  simp only [SignalInv, State.received, hm] at h
  obtain ⟨h1, h2, h3, h4, h5⟩ := h
  have hr := (reporter_tally s.reporter).2 h4
  refine ⟨h2, ?_⟩
  unfold State.live
  omega

/-- Once the channel is closed, exactly as many observers have received a value as there
are workers, and at most one observer is live. -/
theorem closed_counts (s : State) (h : SignalInv s) (hc : s.closed = true) :
    s.received = s.workers.length ∧ s.live ≤ 1 ∧ s.reporter ≠ ReporterPc.wait := by
  obtain ⟨r1, r2, r3⟩ := tally_rel s.workers
  have h' : s.received = s.workers.length ∧ s.reporter ≠ ReporterPc.wait := by
    cases hm : s.main <;> simp [State.closed, hm] at hc <;>
      simpa only [SignalInv, hm] using h
  refine ⟨h'.1, ?_, h'.2⟩
  have h1 := h'.1
  have hr := (reporter_tally s.reporter).1
  unfold State.received at h1
  unfold State.live
  omega

/-- C10 (amended): for every worker count `W > 0`, when `main` has read the three
counters for the final summary (so the function returned by `CC.ShutDown` has returned),
exactly `W` of the `W+1` observers have consumed one sent value and stopped, a stopped
observer takes no further step, at each of the `W` sends at least one live observer
remained to receive it, at most one worker is still running and so at most one is
between its two increments; and in runs of fewer than `2^31` requests the three values
read satisfy `-1 <= TotalRequests - (SuccessCount + ErrorCount) <= 1`. -/
theorem summary_reads_bound (W : Nat) (hW : 0 < W) (tr : List Event) (t su e : Int)
    (hfin : (run tr (init W)).main = MainPc.fin t su e)
    (hb : (run tr (init W)).calls < 2147483648) :
    (run tr (init W)).received = W ∧
    (∀ (ev : Event) (i : Nat) (b : Bool), (run tr (init W)).workers[i]? = some (WorkerPc.done b) →
      (step ev (run tr (init W))).workers[i]? = some (WorkerPc.done b)) ∧
    (∀ (tr0 : List Event) (k : Nat), (run tr0 (init W)).main = MainPc.parked k →
      k < W ∧ 1 ≤ (run tr0 (init W)).live) ∧
    (run tr (init W)).workers.countP WorkerPc.isLive ≤ 1 ∧
    (run tr (init W)).workers.countP WorkerPc.isMid ≤ 1 ∧
    -1 ≤ t - (su + e) ∧ t - (su + e) ≤ 1 := by
  obtain ⟨_, hs, hr⟩ := inv_reach W tr
  have hc : (run tr (init W)).closed = true := by simp [State.closed, hfin]
  obtain ⟨c1, c2, c3⟩ := closed_counts _ hs hc
  obtain ⟨r1, r2, r3⟩ := tally_rel (run tr (init W)).workers
  have hl := closed_live_le_one _ hs hc
  rw [reach_length] at c1
  have hr' := hr hb
  simp only [hfin, State.calls] at hr'
  refine ⟨c1, ?_, ?_, hl, by omega, by omega, by omega⟩
  · intro ev i b h
    exact done_stable ev _ i b h
  · intro tr0 k hm
    have := live_of_parked _ (inv_reach W tr0).2.1 k hm
    rw [reach_length] at this
    exact this

/-- C10 (witness): one worker, one successful request, then shutdown and summary. -/
theorem summary_reads_bound_witness :
    0 < 1 ∧
    (run scheduleSummary (init 1)).main = MainPc.fin 1 1 0 ∧
    (run scheduleSummary (init 1)).calls < 2147483648 ∧
    ((run scheduleSummary (init 1)).received = 1 ∧
    (∀ (ev : Event) (i : Nat) (b : Bool), (run scheduleSummary (init 1)).workers[i]? = some (WorkerPc.done b) →
      (step ev (run scheduleSummary (init 1))).workers[i]? = some (WorkerPc.done b)) ∧
    (∀ (tr0 : List Event) (k : Nat), (run tr0 (init 1)).main = MainPc.parked k →
      k < 1 ∧ 1 ≤ (run tr0 (init 1)).live) ∧
    (run scheduleSummary (init 1)).workers.countP WorkerPc.isLive ≤ 1 ∧
    (run scheduleSummary (init 1)).workers.countP WorkerPc.isMid ≤ 1 ∧
    -1 ≤ (1 : Int) - (1 + 0) ∧ (1 : Int) - (1 + 0) ≤ 1) :=
  ⟨by decide, by decide, by decide,
    summary_reads_bound 1 (by decide) scheduleSummary 1 1 0 (by decide) (by decide)⟩

/-- C10 (counterexample): with one worker whose request is outstanding when the reporter
receives the single send, `main` reads `TotalRequests = 0`, the request then completes
and is counted, and `main` reads `SuccessCount = 1` and `ErrorCount = 0`: the values read
for the summary give `TotalRequests - (SuccessCount + ErrorCount) = -1`. -/
theorem summary_total_below_parts :
    (run scheduleRace (init 1)).main = MainPc.fin 0 1 0 ∧
    (run scheduleRace (init 1)).calls < 2147483648 ∧
    ¬ (0 ≤ (0 : Int) - (1 + 0)) := by
  decide

theorem workerStep_sel_closed (i : Nat) (ok : Bool) (s : State) (hc : s.closed = true)
    (h : s.workers[i]? = some WorkerPc.sel) :
    (workerStep i ok s).workers[i]? = some (WorkerPc.done false) := by
  have hi : i < s.workers.length := by
    by_contra hn
    rw [List.getElem?_eq_none (by omega)] at h
    simp at h
  cases hm : s.main <;> simp [State.closed, hm] at hc <;>
    simp [workerStep, h, hm, hi]

theorem reporterStep_closed (p : Bool) (s : State) (hc : s.closed = true)
    (hr : s.reporter = ReporterPc.run) (hp : (s.tickPending && p) = false) :
    (reporterStep p s).reporter = ReporterPc.done false := by
  cases hm : s.main <;> simp [State.closed, hm] at hc <;>
    simp [reporterStep, hr, hm, hp]

theorem reporterStep_body (p : Bool) (s : State) (hr : s.reporter = ReporterPc.body) :
    (reporterStep p s).reporter = ReporterPc.run ∧ (reporterStep p s).main = s.main ∧
    (reporterStep p s).tickPending = s.tickPending := by
  simp [reporterStep, hr]

/-- C2 (amended): for every worker count `W > 0`, once the function returned by
`CC.ShutDown` has run to completion, exactly `W` of the `W+1` observers have received one
of the sent values and returned and at most one observer is still live; a worker at its
`select` finds the channel closed and returns at its next step, no step makes any worker
start a new request, and every worker has returned after four of its own steps whatever
is interleaved; the reporter is not blocked, and at its `select` it finds the channel
closed and returns unless a tick is pending and the `select` picks the ticker case, in
which case it renders one more line and comes back to the `select`. -/
theorem observers_after_close (W : Nat) (hW : 0 < W) (tr : List Event)
    (hc : (run tr (init W)).closed = true) :
    (run tr (init W)).received = W ∧
    (run tr (init W)).live ≤ 1 ∧
    (∀ (i : Nat) (ok : Bool), (run tr (init W)).workers[i]? = some WorkerPc.sel →
      (step (Event.worker i ok) (run tr (init W))).workers[i]? = some (WorkerPc.done false)) ∧
    (∀ (e : Event) (i : Nat), (step e (run tr (init W))).workers[i]? = some WorkerPc.req →
      (run tr (init W)).workers[i]? = some WorkerPc.req) ∧
    (∀ (tr' : List Event) (i : Nat), i < W → 4 ≤ stepsOf i tr' →
      ∃ b, (run tr' (run tr (init W))).workers[i]? = some (WorkerPc.done b)) ∧
    (run tr (init W)).reporter ≠ ReporterPc.wait ∧
    (∀ (p : Bool), (run tr (init W)).reporter = ReporterPc.run →
      ((run tr (init W)).tickPending && p) = false →
      (step (Event.reporter p) (run tr (init W))).reporter = ReporterPc.done false) ∧
    (∀ (p : Bool), (run tr (init W)).reporter = ReporterPc.body →
      (step (Event.reporter p) (run tr (init W))).reporter = ReporterPc.run) := by
  obtain ⟨_, hs, _⟩ := inv_reach W tr
  obtain ⟨c1, c2, c3⟩ := closed_counts _ hs hc
  rw [reach_length] at c1
  refine ⟨c1, c2, ?_, ?_, ?_, c3, ?_, ?_⟩
  · intro i ok h
    exact workerStep_sel_closed i ok _ hc h
  · intro e i h
    exact no_new_request e _ i hc h
  · intro tr' i hi h4
    have h1 := togo_run_closed tr' _ i hc
    have h2 := togo_le_four (run tr (init W)) i
    apply togo_zero
    · rw [run_length, reach_length]
      exact hi
    · omega
  · intro p hr hp
    exact reporterStep_closed p _ hc hr hp
  · intro p hr
    exact (reporterStep_body p _ hr).1

/-- C2 (witness): one worker; the single send is received by the worker and the channel
is closed while the reporter is at its `select`. -/
theorem observers_after_close_witness :
    0 < 1 ∧ (run scheduleShutdown (init 1)).closed = true ∧
    ((run scheduleShutdown (init 1)).received = 1 ∧
    (run scheduleShutdown (init 1)).live ≤ 1 ∧
    (∀ (i : Nat) (ok : Bool), (run scheduleShutdown (init 1)).workers[i]? = some WorkerPc.sel →
      (step (Event.worker i ok) (run scheduleShutdown (init 1))).workers[i]?
        = some (WorkerPc.done false)) ∧
    (∀ (e : Event) (i : Nat),
      (step e (run scheduleShutdown (init 1))).workers[i]? = some WorkerPc.req →
      (run scheduleShutdown (init 1)).workers[i]? = some WorkerPc.req) ∧
    (∀ (tr' : List Event) (i : Nat), i < 1 → 4 ≤ stepsOf i tr' →
      ∃ b, (run tr' (run scheduleShutdown (init 1))).workers[i]? = some (WorkerPc.done b)) ∧
    (run scheduleShutdown (init 1)).reporter ≠ ReporterPc.wait ∧
    (∀ (p : Bool), (run scheduleShutdown (init 1)).reporter = ReporterPc.run →
      ((run scheduleShutdown (init 1)).tickPending && p) = false →
      (step (Event.reporter p) (run scheduleShutdown (init 1))).reporter
        = ReporterPc.done false) ∧
    (∀ (p : Bool), (run scheduleShutdown (init 1)).reporter = ReporterPc.body →
      (step (Event.reporter p) (run scheduleShutdown (init 1))).reporter = ReporterPc.run)) :=
  ⟨by decide, by decide, observers_after_close 1 (by decide) scheduleShutdown (by decide)⟩

/-- C2 (counterexample): one worker; the worker receives the single send and the channel
is closed while the reporter, which has received nothing, is at its `select` with a tick
pending; the `select` may pick the ticker case, and the reporter then does not return at
this `select` but goes on to render a line. -/
theorem reporter_may_pick_tick_after_close :
    (run scheduleTickPending (init 1)).closed = true ∧
    (run scheduleTickPending (init 1)).reporter = ReporterPc.run ∧
    (run scheduleTickPending (init 1)).tickPending = true ∧
    (step (Event.reporter true) (run scheduleTickPending (init 1))).reporter
      = ReporterPc.body := by
  decide

theorem index_of_get (s : State) (i : Nat) (w : WorkerPc) (h : s.workers[i]? = some w) :
    i < s.workers.length := by
  by_contra hn
  rw [List.getElem?_eq_none (by omega)] at h
  simp at h

theorem workerStep_req (i : Nat) (ok : Bool) (s : State) (h : s.workers[i]? = some WorkerPc.req) :
    (workerStep i ok s).workers[i]? = some (WorkerPc.got ok) ∧
    (workerStep i ok s).main = s.main := by
  have hi := index_of_get s i _ h
  simp [workerStep, h, hi]

theorem workerStep_got (i : Nat) (ok b : Bool) (s : State)
    (h : s.workers[i]? = some (WorkerPc.got b)) :
    (workerStep i ok s).workers[i]? = some (WorkerPc.mid b) ∧
    (workerStep i ok s).main = s.main := by
  have hi := index_of_get s i _ h
  simp [workerStep, h, hi]

theorem workerStep_mid (i : Nat) (ok b : Bool) (s : State)
    (h : s.workers[i]? = some (WorkerPc.mid b)) :
    (workerStep i ok s).workers[i]? = some WorkerPc.sel ∧
    (workerStep i ok s).main = s.main := by
  have hi := index_of_get s i _ h
  cases b <;> simp [workerStep, h, hi]

theorem workerStep_sel_parked (i k : Nat) (ok : Bool) (s : State)
    (h : s.workers[i]? = some WorkerPc.sel) (hm : s.main = MainPc.parked k) :
    (workerStep i ok s).main = MainPc.send (k + 1) := by
  simp [workerStep, h, hm]

/-- A live worker reaches its `select` by its own steps, which leave `main` where it is. -/
theorem worker_reaches_select (s : State) (i : Nat) (w : WorkerPc)
    (h : s.workers[i]? = some w) (hl : w.isLive = true) :
    ∃ tr', (run tr' s).workers[i]? = some WorkerPc.sel ∧ (run tr' s).main = s.main := by
  rcases w with _ | _ | b | b | b
  · exact ⟨[], h, rfl⟩
  · obtain ⟨a1, a2⟩ := workerStep_req i true s h
    obtain ⟨b1, b2⟩ := workerStep_got i true true _ a1
    obtain ⟨c1, c2⟩ := workerStep_mid i true true _ b1
    refine ⟨[Event.worker i true, Event.worker i true, Event.worker i true], c1, ?_⟩
    simp only [run, List.foldl, step]
    rw [c2, b2, a2]
  · obtain ⟨b1, b2⟩ := workerStep_got i true b s h
    obtain ⟨c1, c2⟩ := workerStep_mid i true b _ b1
    refine ⟨[Event.worker i true, Event.worker i true], c1, ?_⟩
    simp only [run, List.foldl, step]
    rw [c2, b2]
  · obtain ⟨c1, c2⟩ := workerStep_mid i true b s h
    exact ⟨[Event.worker i true], c1, c2⟩
  · simp [WorkerPc.isLive] at hl

theorem reporterStep_run_parked (s : State) (k : Nat) (hr : s.reporter = ReporterPc.run)
    (hm : s.main = MainPc.parked k) : (reporterStep false s).main = MainPc.send (k + 1) := by
  simp [reporterStep, hr, hm]

/-- A blocked send is completed by some schedule of observer steps. -/
theorem parked_progress (s : State) (h : SignalInv s) (k : Nat)
    (hm : s.main = MainPc.parked k) :
    ∃ tr', (run tr' s).main = MainPc.send (k + 1) := by
  obtain ⟨_, hl⟩ := live_of_parked s h k hm
  have hw : s.reporter ≠ ReporterPc.wait := by
    simp only [SignalInv, hm] at h
    exact h.2.2.2.2
  by_cases hr : s.reporter.isLive = true
  · rcases hrep : s.reporter with _ | _ | _ | b
    · exact ⟨[Event.reporter false], reporterStep_run_parked s k hrep hm⟩
    · exact absurd hrep hw
    · obtain ⟨a1, a2, _⟩ := reporterStep_body false s hrep
      rw [hm] at a2
      exact ⟨[Event.reporter false, Event.reporter false],
        reporterStep_run_parked (reporterStep false s) k a1 a2⟩
    · simp [hrep, ReporterPc.isLive] at hr
  · have hpos : 0 < s.workers.countP WorkerPc.isLive := by
      unfold State.live at hl
      simp only [hr] at hl
      simpa using hl
    obtain ⟨w, hmem, hlive⟩ := List.countP_pos_iff.mp hpos
    obtain ⟨i, hi⟩ := List.getElem?_of_mem hmem
    obtain ⟨tr1, g1, g2⟩ := worker_reaches_select s i w hi hlive
    refine ⟨tr1 ++ [Event.worker i true], ?_⟩
    rw [run_append]
    exact workerStep_sel_parked i k true (run tr1 s) g1 (g2.trans hm)

theorem mainStep_send_last (s : State) (k : Nat) (hm : s.main = MainPc.send k)
    (hk : ¬ k < s.workers.length) : (mainStep s).closed = true := by
  simp [mainStep, ShutDown, hm, hk, State.closed]

theorem mainStep_send_wait (s : State) (k : Nat) (hm : s.main = MainPc.send k)
    (hk : k < s.workers.length) (hw : s.reporter = ReporterPc.wait) :
    (mainStep s).main = MainPc.send (k + 1) := by
  simp [mainStep, ShutDown, hm, hk, hw]

theorem mainStep_send_park (s : State) (k : Nat) (hm : s.main = MainPc.send k)
    (hk : k < s.workers.length) (hw : s.reporter ≠ ReporterPc.wait) :
    (mainStep s).main = MainPc.parked k := by
  simp [mainStep, ShutDown, hm, hk, hw]

/-- From the loop head of `Done()` some schedule completes the remaining sends and the
close. -/
theorem send_progress (n : Nat) (s : State) (k : Nat) (h : Inv s)
    (hm : s.main = MainPc.send k) (hn : s.workers.length - k = n) :
    ∃ tr', (run tr' s).closed = true := by
  induction n generalizing s k with
  | zero => exact ⟨[Event.main], mainStep_send_last s k hm (by omega)⟩
  | succ n ih =>
    have hk : k < s.workers.length := by omega
    have hi1 : Inv (step Event.main s) := inv_step _ s h
    have hlen1 : (step Event.main s).workers.length = s.workers.length := step_length _ s
    by_cases hw : s.reporter = ReporterPc.wait
    · have h1 : (step Event.main s).main = MainPc.send (k + 1) :=
        mainStep_send_wait s k hm hk hw
      obtain ⟨tr2, h2⟩ := ih (step Event.main s) (k + 1) hi1 h1 (by omega)
      exact ⟨Event.main :: tr2, h2⟩
    · have h1 : (step Event.main s).main = MainPc.parked k := mainStep_send_park s k hm hk hw
      obtain ⟨tr1, g1⟩ := parked_progress (step Event.main s) hi1.2.1 k h1
      have hi2 : Inv (run tr1 (step Event.main s)) := inv_run tr1 _ hi1
      have hlen2 : (run tr1 (step Event.main s)).workers.length = s.workers.length := by
        rw [run_length, hlen1]
      obtain ⟨tr2, h2⟩ := ih (run tr1 (step Event.main s)) (k + 1) hi2 g1 (by omega)
      refine ⟨Event.main :: (tr1 ++ tr2), ?_⟩
      rw [run_cons, run_append]
      exact h2

/-- From every state satisfying the invariant some schedule closes the channel. -/
theorem close_reachable (s : State) (h : Inv s) : ∃ tr', (run tr' s).closed = true := by
  cases hm : s.main with
  | sleep =>
    have h1 : (step Event.main s).main = MainPc.send 0 := by simp [step, mainStep, ShutDown, hm]
    obtain ⟨tr2, h2⟩ := send_progress _ (step Event.main s) 0 (inv_step _ s h) h1 rfl
    exact ⟨Event.main :: tr2, h2⟩
  | send k => exact send_progress _ s k h hm rfl
  | parked k =>
    obtain ⟨tr1, g1⟩ := parked_progress s h.2.1 k hm
    obtain ⟨tr2, h2⟩ := send_progress _ (run tr1 s) (k + 1) (inv_run tr1 s h) g1 rfl
    refine ⟨tr1 ++ tr2, ?_⟩
    rw [run_append]
    exact h2
  | shut => exact ⟨[], by simp [run, State.closed, hm]⟩
  | readS t => exact ⟨[], by simp [run, State.closed, hm]⟩
  | readE t su => exact ⟨[], by simp [run, State.closed, hm]⟩
  | fin t su e => exact ⟨[], by simp [run, State.closed, hm]⟩

/-- The channel is closed only by a step of `main` at the loop head of `Done()` with the
loop variable equal to the number of workers. -/
theorem close_only_by_main (e : Event) (s : State) (h : SignalInv s)
    (h0 : s.closed = false) (h1 : (step e s).closed = true) :
    e = Event.main ∧ s.main = MainPc.send s.workers.length := by
  cases e with
  | worker i ok =>
    exfalso
    simp only [step, workerStep] at h1
    cases hm : s.main <;> simp [State.closed, hm] at h0 <;>
      split at h1 <;> simp [State.closed, hm] at h1
  | reporter p =>
    exfalso
    simp only [step, reporterStep] at h1
    cases hr : s.reporter <;> cases hm : s.main <;> cases ht : s.tickPending <;> cases p <;>
      simp [State.closed, hm] at h0 <;> simp [State.closed, hm, hr, ht] at h1
  | tick =>
    exfalso
    have := (tickStep_frame s).2.2.2.2
    simp only [step, State.closed, this] at h1
    simp only [State.closed] at h0
    rw [h0] at h1
    exact Bool.false_ne_true h1
  | main =>
    refine ⟨rfl, ?_⟩
    cases hm : s.main <;> simp [State.closed, hm] at h0
    · simp [step, mainStep, ShutDown, hm, State.closed] at h1
    · rename_i k
      simp only [SignalInv, hm] at h
      by_cases hk : k < s.workers.length
      · by_cases hw : s.reporter = ReporterPc.wait <;>
          simp [step, mainStep, ShutDown, hm, hk, hw, State.closed] at h1
      · have : k = s.workers.length := by omega
        rw [this]
    · simp [step, mainStep, ShutDown, hm, State.closed] at h1

theorem stuck_step (e : Event) (s : State) (he : e = Event.main ∨ e = Event.tick)
    (h : Stuck s) : Stuck (step e s) := by
  obtain ⟨hw, hm⟩ := h
  have hlen : s.workers.length = 2 := by rw [hw]; rfl
  rcases he with rfl | rfl
  · refine ⟨((mainStep_frame s).1).trans hw, ?_⟩
    rcases hm with hm | hm | hm | ⟨hm, hr⟩ | hm
    · simp [step, mainStep, ShutDown, hm]
    · by_cases hwt : s.reporter = ReporterPc.wait <;> simp [step, mainStep, ShutDown, hm, hlen, hwt]
    · simp [step, mainStep, ShutDown, hm]
    · simp [step, mainStep, ShutDown, hm, hlen, hr]
    · simp [step, mainStep, ShutDown, hm]
  · refine ⟨((tickStep_frame s).1).trans hw, ?_⟩
    have hmain : (step Event.tick s).main = s.main := (tickStep_frame s).2.2.2.2
    rw [hmain]
    rcases hm with hm | hm | hm | ⟨hm, hr⟩ | hm
    · exact Or.inl hm
    · exact Or.inr (Or.inl hm)
    · exact Or.inr (Or.inr (Or.inl hm))
    · refine Or.inr (Or.inr (Or.inr (Or.inl ⟨hm, ?_⟩)))
      simp [step, tickStep, hr]
    · exact Or.inr (Or.inr (Or.inr (Or.inr hm)))

theorem stuck_run (tr : List Event) (s : State)
    (he : ∀ e ∈ tr, e = Event.main ∨ e = Event.tick) (h : Stuck s) : Stuck (run tr s) := by
  induction tr generalizing s with
  | nil => exact h
  | cons e tr ih =>
    rw [run_cons]
    exact ih (step e s) (fun e' he' => he e' (List.mem_cons_of_mem _ he'))
      (stuck_step e s (he e (List.mem_cons_self _ _)) h)

theorem stuck_not_closed (s : State) (h : Stuck s) : s.closed = false := by
  obtain ⟨_, hm⟩ := h
  rcases hm with hm | hm | hm | ⟨hm, _⟩ | hm <;> simp [State.closed, hm]

/-- C6 (amended): the shutdown trigger completes through `W` hand-overs to observers and
blocks its initiator at a send until an observer receives the value: for every worker
count `W > 0` and every reachable state there is a continuation of the run in which the
trigger runs to completion; while a send is blocked `main` cannot step, the loop is not
finished and at least one live observer remains to receive the value; the channel is
closed by `main` only, after the `W`-th send, and once closed it stays closed (exactly
one close); when it is closed exactly `W` observers have received a value. -/
theorem trigger_completes_with_observers (W : Nat) (hW : 0 < W) (tr : List Event) :
    (∃ tr', (run tr' (run tr (init W))).closed = true) ∧
    (∀ (k : Nat), (run tr (init W)).main = MainPc.parked k →
      step Event.main (run tr (init W)) = run tr (init W) ∧ k < W ∧
        1 ≤ (run tr (init W)).live) ∧
    (∀ (e : Event), (run tr (init W)).closed = false →
      (step e (run tr (init W))).closed = true →
      e = Event.main ∧ (run tr (init W)).main = MainPc.send W) ∧
    (∀ (e : Event), (run tr (init W)).closed = true →
      (step e (run tr (init W))).closed = true) ∧
    ((run tr (init W)).closed = true → (run tr (init W)).received = W) := by
  have hi := inv_reach W tr
  refine ⟨close_reachable _ hi, ?_, ?_, ?_, ?_⟩
  · intro k hm
    have := live_of_parked _ hi.2.1 k hm
    rw [reach_length] at this
    refine ⟨?_, this⟩
    simp [step, mainStep, ShutDown, hm]
  · intro e h0 h1
    have := close_only_by_main e _ hi.2.1 h0 h1
    rw [reach_length] at this
    exact this
  · intro e hc
    exact closed_step e _ hc
  · intro hc
    have := (closed_counts _ hi.2.1 hc).1
    rw [reach_length] at this
    exact this

/-- C6 (witness): two workers with requests outstanding and the reporter blocked in its
`select`. -/
theorem trigger_completes_with_observers_witness :
    0 < 2 ∧
    ((∃ tr', (run tr' (run scheduleBusy (init 2))).closed = true) ∧
    (∀ (k : Nat), (run scheduleBusy (init 2)).main = MainPc.parked k →
      step Event.main (run scheduleBusy (init 2)) = run scheduleBusy (init 2) ∧ k < 2 ∧
        1 ≤ (run scheduleBusy (init 2)).live) ∧
    (∀ (e : Event), (run scheduleBusy (init 2)).closed = false →
      (step e (run scheduleBusy (init 2))).closed = true →
      e = Event.main ∧ (run scheduleBusy (init 2)).main = MainPc.send 2) ∧
    (∀ (e : Event), (run scheduleBusy (init 2)).closed = true →
      (step e (run scheduleBusy (init 2))).closed = true) ∧
    ((run scheduleBusy (init 2)).closed = true → (run scheduleBusy (init 2)).received = 2)) :=
  ⟨by decide, trigger_completes_with_observers 2 (by decide) scheduleBusy⟩

/-- C6 (counterexample): two workers with requests outstanding and the reporter blocked
in its `select`; no schedule made of steps of `main` and ticks only closes the channel:
the first send is handed to the reporter and the second one blocks until a worker comes
back to its `select`. -/
theorem trigger_blocked_without_observers :
    ¬ ∃ tr', (∀ e ∈ tr', e = Event.main ∨ e = Event.tick) ∧
      (run tr' (run scheduleBusy (init 2))).closed = true := by
  rintro ⟨tr', he, hc⟩
  have h0 : Stuck (run scheduleBusy (init 2)) := by
    unfold Stuck
    decide
  have := stuck_not_closed _ (stuck_run tr' _ he h0)
  rw [this] at hc
  exact Bool.false_ne_true hc

end LoadGen
